import Mathlib

/-!
# Verification of the event-placer scheduling engine

Shallow embedding of `src/event_placer_v2/js/schedule.js` and the data model
of `src/event_placer_v2/js/models.js`, together with proofs settling the
specification claims about the engine.

Conventions of the embedding:
* JS numbers that the engine uses as integers are modelled as `Int`/`Nat`.
* A grid slot (`0` or an `Event` reference in JS) is `Option Nat`: `none` is
  the empty slot `0`, `some i` is a reference to the event object with
  identity `i`.  Reading an array out of bounds (JS `undefined`) is modelled
  by `cellNonZero` returning `true` (since `undefined !== 0`).
* Event objects are mutable in JS; here every event object carries an
  identity `id : Nat` for its static part (`EventS`) and the schedule state
  carries a map `evs : Nat → EvDyn` for the mutable outcome fields.
* `Math.random()` in the `Random` constructor is ambient nondeterminism; it
  is passed in explicitly as the `entropy` argument.
-/

/-- `Math.ceil (a / b)` on integers, for `b ≠ 0`
(`Math.ceil x = -Math.floor (-x)` and `(-a)/b = -(a/b)` exactly). -/
def jsCeilDiv (a b : Int) : Int := -((-a).fdiv b)

/-- `Math.floor (a / b)` on integers, for `b ≠ 0`. -/
def jsFloorDiv (a b : Int) : Int := a.fdiv b

/-- A grid cell: `none` = the number `0` (empty), `some i` = the event with id `i`. -/
abbrev Cell := Option Nat

/-- JS `arr[k] !== 0` on a grid array: true when `k` is out of bounds
(`undefined !== 0`) or the slot holds an event reference. -/
def cellNonZero (g : List Cell) (k : Int) : Bool :=
  !(decide (0 ≤ k) && decide (k < (g.length : Int)) && (g.getD k.toNat none).isNone)

/-- JS `arr[k] = v` on a grid array.  In-bounds writes update the slot; a
write at `k ≥ length` extends the array with empty holes (JS sparse write);
a negative `k` creates a non-index property, invisible to index reads, so it
is a no-op here. -/
def setCellJs (g : List Cell) (k : Int) (v : Cell) : List Cell :=
  if k < 0 then g
  else if k.toNat < g.length then g.set k.toNat v
  else g ++ List.replicate (k.toNat - g.length) none ++ [v]

/-- Decimal digits of a natural number, most significant first, computed
structurally with fuel (any fuel above the value is enough). -/
def natDigitsF : Nat → Nat → List Char
  | 0, _ => []
  | f + 1, n =>
    if n < 10 then [Char.ofNat (48 + n)]
    else natDigitsF f (n / 10) ++ [Char.ofNat (48 + n % 10)]

/-- Decimal string of a natural number, as produced by the JS template
literal `` `UN ${this.unscheduledCount}` ``. -/
def natToStr (n : Nat) : String := ⟨natDigitsF (n + 1) n⟩

theorem natToStr_twelve : natToStr 12 = "12" := rfl

/-- Value of a decimal digit character. -/
def digitVal (c : Char) : Nat := c.toNat - 48

/-- Decode a digit list back to the number (left inverse of the digits). -/
def digitsVal (l : List Char) : Nat := l.foldl (fun a c => a * 10 + digitVal c) 0

theorem digitsVal_append_singleton (l : List Char) (c : Char) :
    digitsVal (l ++ [c]) = digitsVal l * 10 + digitVal c := by
  simp [digitsVal, List.foldl_append]

theorem digitVal_ofNat (d : Nat) (h : d < 10) : digitVal (Char.ofNat (48 + d)) = d := by
  interval_cases d <;> rfl

theorem digitsVal_natDigitsF (f : Nat) : ∀ n < f, digitsVal (natDigitsF f n) = n := by
  induction f with
  | zero => omega
  | succ f ih =>
    intro n hn
    rw [natDigitsF]
    by_cases h : n < 10
    · simp only [h, if_true]
      show digitsVal ([] ++ [Char.ofNat (48 + n)]) = n
      rw [digitsVal_append_singleton, digitVal_ofNat n h]
      simp [digitsVal]
    · simp only [h, if_false]
      have hdiv : n / 10 < f := by
        have := Nat.div_lt_self (show 0 < n by omega) (show 1 < 10 by omega)
        omega
      rw [digitsVal_append_singleton, ih (n / 10) hdiv,
        digitVal_ofNat (n % 10) (Nat.mod_lt _ (by omega))]
      omega

theorem natToStr_injective : Function.Injective natToStr := by
  intro a b h
  have hd : natDigitsF (a + 1) a = natDigitsF (b + 1) b := congrArg String.data h
  have := congrArg digitsVal hd
  rwa [digitsVal_natDigitsF (a + 1) a (by omega),
    digitsVal_natDigitsF (b + 1) b (by omega)] at this

/-- JS `str.split(sep)` for a one-character separator, on character lists:
`"".split(" ")` is `[""]`, and consecutive separators yield empty pieces. -/
def splitChars (sep : Char) : List Char → List (List Char)
  | [] => [[]]
  | c :: rest =>
    match splitChars sep rest with
    | h :: t => if c = sep then [] :: h :: t else (c :: h) :: t
    | [] => if c = sep then [[], []] else [[c]]

/-- JS `str.split(" ")` (structurally recursive, unlike `String.splitOn`,
so that concrete runs evaluate inside the kernel). -/
def jsSplit (s : String) (sep : Char) : List String :=
  (splitChars sep s.data).map (fun l => ⟨l⟩)

/-- JS `s.startsWith(pre)` (names here are ASCII, so the UTF-16 prefix test
is the character prefix test). -/
def jsStartsWith (s pre : String) : Bool := pre.data.isPrefixOf s.data

/-! ## Data model (`models.js`) -/

/-- The `Time` block of `models.js`: recurring weekday tokens and the window
in minutes from midnight (`timeToMinutes` of the `"HH:MM"` strings). -/
structure TimeObj where
  days : List String
  startMin : Int
  endMin : Int
deriving DecidableEq, Repr

/-- Static part of an `Event` object.  `id` is the JS object identity.
`dept` is derived in the `Event` constructor from the event code
(leading alphabetic prefix via `getDept`); the claims do not depend on the
code parsing, so it is carried as a field.  The outcome fields
(`indices`, `placedLocation`, `metric`) are mutable and live in `EvDyn`. -/
structure EventS where
  id : Nat
  seats : Int
  bldgCode : String
  roomNumber : String
  dept : String
  timeObj : TimeObj
deriving DecidableEq, Repr

/-- `this.pastLocationString = ` ``  `${bldg} ${room}`  `` in the `Event`
constructor; `getHistoricalLocations()[0]` returns it. -/
def pastLocationString (e : EventS) : String := e.bldgCode ++ " " ++ e.roomNumber

/-- Mutable outcome fields of an `Event` object. -/
structure EvDyn where
  indices : List (Int × Int)
  placedLocation : String
  metric : Nat
deriving DecidableEq, Repr

instance : Inhabited EvDyn := ⟨⟨[], "", 0⟩⟩

/-- `Event.reset()`. -/
def resetDyn : EvDyn := ⟨[], "", 0⟩

/-- A `Location` object (`models.js`).  `lid` is the JS object identity
(used by the `includes` identity test in phase 3); `building` is
`name.split(" ")[0]` as set by the constructor. -/
structure LocationR where
  lid : Nat
  name : String
  capacity : Int
deriving DecidableEq, Repr

/-- `this.building = this.name.split(" ")[0]`. -/
def LocationR.building (l : LocationR) : String := (jsSplit l.name ' ').headD ""

/-! ## The seeded `Random` class -/

/-- `this.m = 0x80000000`. -/
def randM : Nat := 0x80000000

/-- `this.a = 1103515245`. -/
def randA : Nat := 1103515245

/-- `this.c = 12345`. -/
def randC : Nat := 12345

/-- The `Random` constructor:
`this.state = seed ? seed : Math.floor(Math.random() * (this.m - 1))`.
A zero seed is falsy, so it selects the `Math.random()`-derived value,
passed here explicitly as `entropy` (a value in `[0, m-1)`). -/
def randomInit (seed : Nat) (entropy : Nat) : Nat :=
  if seed ≠ 0 then seed else entropy

/-- `nextInt()`: the new state, which is also the returned value, in the
exact-integer idealisation of `(this.a * this.state + this.c) % this.m`.
This is faithful to the engine's IEEE-754 doubles exactly when
`a * state + c < 2^53` (states up to `8162278`), which holds at every state
produced in every concrete run of this file; the general rounded step is
`nextIntJs` below, and `nextIntJs_eq_exact` proves the two agree on that
region. -/
def nextIntVal (state : Nat) : Nat := (randA * state + randC) % randM

/-- `nextFloat()`: `this.nextInt() / (this.m - 1)` as an exact rational,
over the exact-integer idealisation of the step.
The comment in the source says "returns in range [0, 1]". -/
def nextFloatVal (state : Nat) : ℚ := (nextIntVal state : ℚ) / ((randM : ℚ) - 1)

/-- `log2F fuel n` is `⌊log₂ n⌋` for `1 ≤ n ≤ fuel`, by structural
recursion on the fuel (`log2F_spec`). -/
def log2F : Nat → Nat → Nat
  | 0, _ => 0
  | fuel + 1, n => if 2 ≤ n then log2F fuel (n / 2) + 1 else 0

/-- The binade exponent of an integer seen as an IEEE-754 binary64 value:
every integer below `2^53` is exactly representable, and in
`[2^(52+e), 2^(53+e))` (`e ≥ 1`) the representable values are the
multiples of `2^e`. -/
def ulpExp (n : Nat) : Nat := if n < 2 ^ 53 then 0 else log2F n n - 52

/-- Round a natural number to the nearest IEEE-754 binary64 value
(round-half-to-even, the JS rounding mode): the nearest multiple of
`2 ^ ulpExp n`, a tie going to the even multiple. -/
def flN (n : Nat) : Nat :=
  let u := 2 ^ ulpExp n
  let q := n / u
  let r := n % u
  (if 2 * r < u then q
   else if u < 2 * r then q + 1
   else if q % 2 = 0 then q else q + 1) * u

/-- `nextInt()` as the engine executes it: `this.a * this.state + this.c`
is evaluated in doubles, so the product and then the sum are each rounded
before the (exact, since the result is below `2^31`) modulus is taken. -/
def nextIntJs (state : Nat) : Nat := flN (flN (randA * state) + randC) % randM

/-- `nextFloat()` over the rounded step. -/
def nextFloatJs (state : Nat) : ℚ := (nextIntJs state : ℚ) / ((randM : ℚ) - 1)

/-- One Fisher-Yates step at index `i`:
`j = Math.floor(this.nextFloat() * (i + 1)); [array[i], array[j]] = [array[j], array[i]]`.
Swapping via the two reads and two writes of the JS destructuring. -/
def swapIdx {α : Type} (l : List α) (i j : Nat) : List α :=
  match l.get? i, l.get? j with
  | some a, some b => (l.set i b).set j a
  | _, _ => l

/-- The `shuffle` loop, counting `i` down from `array.length - 1` to `1`.
`j = Math.floor(this.nextFloat() * (i + 1))` is written in natural-number
division (`shuffleGo_index_spec` proves it equal to the floor of the exact
rational product).  If the idealised `nextFloat()` returned exactly `1` the
computed `j` would equal `i + 1`, an out-of-range index whose JS swap
corrupts the array (writing `undefined` into it) and crashes the phase
loops that consume it — modelled as an error.  The rounded `nextFloat()`
never returns `1` (`c9_nextFloat_range`), and on the exact region the two
models agree (`nextIntJs_eq_exact`), so the error branch is unreachable in
the runs of this file. -/
def shuffleGo {α : Type} (state : Nat) (arr : List α) : Nat → Except String (Nat × List α)
  | 0 => .ok (state, arr)
  | i + 1 =>
    let st := nextIntVal state
    let j := st * (i + 2) / (randM - 1)
    if j < arr.length then shuffleGo st (swapIdx arr (i + 1) j) i
    else .error "shuffle: index out of range"

/-- The shuffle index in `shuffleGo` is exactly
`Math.floor(nextFloat() * n)` for the advanced generator state. -/
theorem shuffleGo_index_spec (state n : Nat) :
    nextIntVal state * n / (randM - 1) = ⌊nextFloatVal state * (n : ℚ)⌋₊ := by
  have hm : ((randM : ℚ) - 1) = ((randM - 1 : Nat) : ℚ) := by norm_num [randM]
  rw [nextFloatVal, hm, div_mul_eq_mul_div]
  rw [show ((nextIntVal state : ℚ) * (n : ℚ)) = ((nextIntVal state * n : Nat) : ℚ) by push_cast; ring]
  rw [Nat.floor_div_nat, Nat.floor_natCast]

/-- `shuffle(array)` (in place in JS; returns the permuted list here). -/
def shuffleJs {α : Type} (state : Nat) (arr : List α) : Except String (Nat × List α) :=
  match arr.length with
  | 0 => .ok (state, arr)
  | n + 1 => shuffleGo state arr n

/-! ## The `Schedule` class: state and constructor -/

/-- The full-name to single-token day map of the constructor. -/
def dayMap : String → Option String
  | "Sunday" => some "Su"
  | "Monday" => some "M"
  | "Tuesday" => some "T"
  | "Wednesday" => some "W"
  | "Thursday" => some "R"
  | "Friday" => some "F"
  | "Saturday" => some "Sa"
  | _ => none

/-- `this.dayMap[d]` for an unmapped day is `undefined`; used afterwards as
an object key it coerces to the string `"undefined"`. -/
def dayMapStr (d : String) : String := (dayMap d).getD "undefined"

/-- Set a key in a JS object modelled as an association list
(assignment overwrites an existing key in place). -/
def assocSet (l : List (String × Int)) (k : String) (v : Int) : List (String × Int) :=
  if l.any (fun p => p.1 = k) then l.map (fun p => if p.1 = k then (k, v) else p)
  else l ++ [(k, v)]

/-- `obj[k]` / `obj.hasOwnProperty(k)` on an association list. -/
def assocGet (l : List (String × Int)) (k : String) : Option Int :=
  (l.find? (fun p => p.1 = k)).map (·.2)

/-- State of a `Schedule` instance, plus the mutable outcome fields of the
event objects it touches (`evs`, JS object identity → outcome fields).
`grid` maps a location name to its slot array; names that were never
assigned map to `[]` (no readable indices, like a missing key). -/
structure St where
  locations : List LocationR
  interval : Int
  timeGap : Int
  schStartMin : Int
  schEndMin : Int
  shortDays : List String
  dayIntervals : Int
  weekIntervals : Int
  dayOffsets : List (String × Int)
  grid : String → List Cell
  locationPreferences : List (String × List String)
  metrics : Int × Int × Int × Int
  unscheduledCount : Nat
  evs : Nat → EvDyn

instance : Inhabited St :=
  ⟨⟨[], 0, 0, 0, 0, [], 0, 0, [], fun _ => [], [], (0, 0, 0, 0), 0, fun _ => default⟩⟩

/-- Names of the locations currently in `this.locations`. -/
def locNames (s : St) : List String := s.locations.map (·.name)

/-- The `Schedule` constructor.  Inputs are the location (name, capacity)
records (object identities assigned by list position), the schedule bounds
already converted to minutes (the `timeToMinutes` string conversion belongs
to the ingestion collaborator), the active day names, and the parsed
`interval` and `timeGap`.

`new Array(this.weekIntervals)` throws `RangeError: Invalid array length`
unless the length is an integer in `[0, 2^32)`; with `interval = 0` the JS
`weekIntervals` is `Infinity` or `NaN`, and with `interval < 0` it is
negative, so any such configuration throws here as soon as there is at
least one location (the loop body never runs on an empty location list).
When the constructor returns `ok`, the stored `dayIntervals` and
`weekIntervals` equal the JS values whenever `interval ≠ 0`. -/
def scheduleNew (locsIn : List (String × Int)) (schStartMin schEndMin : Int)
    (activeDays : List String) (interval timeGap : Int) : Except String St :=
  let locations := locsIn.enum.map (fun p => LocationR.mk p.1 p.2.1 p.2.2)
  let shortDays := activeDays.map dayMapStr
  let dayIntervals := jsFloorDiv (schEndMin - schStartMin) interval
  let weekIntervals := dayIntervals * shortDays.length
  let dayOffsets := (shortDays.enum).foldl
    (fun acc p => assocSet acc p.2 ((p.1 : Int) * dayIntervals)) []
  let lenOk := interval ≠ 0 ∧ 0 ≤ weekIntervals ∧ weekIntervals < 2 ^ 32
  if locations.isEmpty ∨ lenOk then
    .ok
      { locations := locations
        interval := interval
        timeGap := timeGap
        schStartMin := schStartMin
        schEndMin := schEndMin
        shortDays := shortDays
        dayIntervals := dayIntervals
        weekIntervals := weekIntervals
        dayOffsets := dayOffsets
        grid := locations.foldl
          (fun g l => fun n =>
            if n = l.name then List.replicate weekIntervals.toNat none else g n)
          (fun _ => [])
        locationPreferences := []
        metrics := (0, 0, 0, 0)
        unscheduledCount := 0
        evs := fun _ => default }
  else .error "RangeError: Invalid array length"

/-- `setLocationPreferences(prefObj)` (`prefObj || {}` — an absent object is
the empty mapping). -/
def setLocationPreferences (s : St) (prefs : List (String × List String)) : St :=
  { s with locationPreferences := prefs }

/-! ## Index computation and placement primitive -/

/-- `getIndicesForEvent(eventTimeObj)`: one `[startIdx, endIdx]` range per
event day that is an active schedule day, fits after the schedule start and
inside the day's slot span. -/
def getIndicesForEvent (s : St) (t : TimeObj) : List (Int × Int) :=
  let durationMin := t.endMin - t.startMin
  let slotsNeeded := jsCeilDiv durationMin s.interval
  t.days.foldl
    (fun result day =>
      match assocGet s.dayOffsets day with
      | none => result
      | some off =>
        let timeOffsetMin := t.startMin - s.schStartMin
        if timeOffsetMin < 0 then result
        else
          let startIdx := off + jsFloorDiv timeOffsetMin s.interval
          let endIdx := startIdx + slotsNeeded
          if endIdx ≤ off + s.dayIntervals then result ++ [(startIdx, endIdx)]
          else result)
    []

/-- `checkTimeGap(locationArr, start, end)`: `true` means a collision within
the gap window.  The before loop runs `i = 1 .. gapSlots` guarded by
`start - i >= 0`; the after loop runs `i = 0 .. gapSlots - 1` guarded by
`end + i < locationArr.length`. -/
def checkTimeGap (s : St) (g : List Cell) (start stop : Int) : Bool :=
  if s.timeGap == 0 then false
  else
    let gapSlots := jsCeilDiv s.timeGap s.interval
    ((List.range gapSlots.toNat).any fun i0 =>
      let i : Int := (i0 : Int) + 1
      decide (0 ≤ start - i) && cellNonZero g (start - i)) ||
    ((List.range gapSlots.toNat).any fun i0 =>
      let i : Int := (i0 : Int)
      decide (stop + i < (g.length : Int)) && cellNonZero g (stop + i))

/-- The slot indices `start, start+1, ..., end-1` of one range. -/
def rangeSlots (r : Int × Int) : List Int :=
  (List.range (r.2 - r.1).toNat).map (fun k => r.1 + Int.ofNat k)

/-- The rejection test of one range in `placeEvent` (no `force`): the gap
check — skipped entirely when `start` is `0` — followed by the
slot-by-slot overlap check `grid[k] !== 0`. -/
def rangeRejected (s : St) (g : List Cell) (r : Int × Int) : Bool :=
  (decide (r.1 ≠ 0) && checkTimeGap s g r.1 r.2) ||
  (rangeSlots r).any (fun k => cellNonZero g k)

/-- `event.updateIndices(newIndices)`: write-once — a no-op returning
`false` when `this.indices` is non-empty (the result is ignored by
`placeEvent`). -/
def updateIndices (s : St) (eid : Nat) (newIndices : List (Int × Int)) : St :=
  if (s.evs eid).indices.length ≠ 0 then s
  else { s with evs := fun i => if i = eid then { s.evs i with indices := newIndices } else s.evs i }

/-- Clear `event.indices` (the `event.indices = []` rollback lines). -/
def clearIndices (s : St) (eid : Nat) : St :=
  { s with evs := fun i => if i = eid then { s.evs i with indices := [] } else s.evs i }

/-- Write the event reference into every slot of every range of `ranges` in
the grid of `locName`, then record the location on the event. -/
def commitPlacement (s : St) (e : EventS) (locName : String) (ranges : List (Int × Int)) : St :=
  let g := ranges.foldl (fun g r => (rangeSlots r).foldl (fun g k => setCellJs g k (some e.id)) g)
    (s.grid locName)
  { s with
    grid := fun n => if n = locName then g else s.grid n
    evs := fun i => if i = e.id then { s.evs i with placedLocation := locName } else s.evs i }

/-- `placeEvent(event, location, force = false)`. -/
def placeEvent (s : St) (e : EventS) (loc : LocationR) (force : Bool) : Bool × St :=
  if e.timeObj.startMin < s.schStartMin ∨ e.timeObj.endMin > s.schEndMin then (false, s)
  else
    let ranges := getIndicesForEvent s e.timeObj
    let s := updateIndices s e.id ranges
    if ranges.isEmpty then (false, s)
    else
      let g := s.grid loc.name
      if !force && decide (e.seats > loc.capacity) then (false, clearIndices s e.id)
      else if !force && ranges.any (fun r => rangeRejected s g r) then (false, clearIndices s e.id)
      else (true, commitPlacement s e loc.name ranges)

/-! ## The four phases of `createSchedule` -/

instance : Inhabited LocationR := ⟨⟨0, "", 0⟩⟩

/-- The `findLoc` helper of `createSchedule`: normalize a `"BLDG 00"` /
`"BLDG 000"` room token to `"BLDG 0"`, then look the name up. -/
def findLoc (s : St) (name : String) : Option LocationR :=
  let parts := jsSplit name ' '
  let cleanName :=
    if parts.get? 1 = some "00" ∨ parts.get? 1 = some "000" then parts.headD "" ++ " 0"
    else name
  s.locations.find? (fun l => l.name = cleanName)

/-- The `findLocsByBldg` helper of `createSchedule`:
`this.locations.filter(l => l.name.startsWith(bldg))`. -/
def findLocsByBldg (s : St) (bldg : String) : List LocationR :=
  s.locations.filter (fun l => jsStartsWith l.name bldg)

/-- `events.forEach(e => e.reset())`. -/
def resetEvents (s : St) (events : List EventS) : St :=
  events.foldl
    (fun s e => { s with evs := fun i => if i = e.id then resetDyn else s.evs i }) s

/-- Phase 1 — historical continuity.  Accumulates
`(state, failures, waitingList, finalList)`; `createSchedule` starts it with
`failures = 0` and empty pools. -/
def phase1 (s : St) (events : List EventS) (failures : Nat)
    (w fin : List EventS) : St × Nat × List EventS × List EventS :=
  events.foldl
    (fun acc e =>
      let (s, f, w, fin) := acc
      if e.bldgCode = "undefined" ∨ e.bldgCode = "nan" then (s, f, w, fin ++ [e])
      else if e.roomNumber = "undefined" ∨ e.roomNumber = "nan" then (s, f, w ++ [e], fin)
      else
        match findLoc s (pastLocationString e) with
        | some loc =>
          let (ok, s') := placeEvent s e loc false
          if ok then (s', f, w, fin) else (s', f + 1, w ++ [e], fin)
        | none => (s, f + 1, w ++ [e], fin))
    (s, failures, w, fin)

/-- The inner `for (let loc of ...) if (this.placeEvent(event, loc)) break`
loops of phases 2 and 3: attempt each candidate in order until one
succeeds. -/
def tryLocs (s : St) (e : EventS) : List LocationR → Bool × St
  | [] => (false, s)
  | l :: rest =>
    let (ok, s') := placeEvent s e l false
    if ok then (true, s') else tryLocs s' e rest

/-- Phase 2 — same building.  Accumulates `(state, failures, finalList)`. -/
def phase2 (s : St) (waiting : List EventS) (failures : Nat) (final : List EventS) :
    St × Nat × List EventS :=
  waiting.foldl
    (fun acc e =>
      let (s, f, fin) := acc
      let bldgLocs := findLocsByBldg s e.bldgCode
      if bldgLocs.isEmpty then (s, f, fin ++ [e])
      else
        let (ok, s') := tryLocs s e bldgLocs
        if ok then (s', f, fin) else (s', f + 1, fin ++ [e]))
    (s, failures, final)

/-- The phase-3 candidate list for one activity: resources of every
preferred building of its department (configuration order), followed by all
remaining resources (`includes` is JS object identity, here structural
equality on `LocationR`, faithful because distinct objects have distinct
`lid`). -/
def potentialLocsFor (s : St) (e : EventS) : List LocationR :=
  let pot :=
    match s.locationPreferences.find? (fun p => p.1 = e.dept) with
    | some p => p.2.foldl (fun acc b => acc ++ findLocsByBldg s b) []
    | none => []
  let remaining := s.locations.filter (fun l => !pot.elem l)
  pot ++ remaining

/-- Phase 3 — preferences and all others.  Accumulates
`(state, failures, unscheduled)`; `createSchedule` starts it with an empty
unscheduled pool. -/
def phase3 (s : St) (final : List EventS) (failures : Nat)
    (uns : List EventS) : St × Nat × List EventS :=
  final.foldl
    (fun acc e =>
      let (s, f, uns) := acc
      let (ok, s') := tryLocs s e (potentialLocsFor s e)
      if ok then (s', f, uns) else (s', f + 1, uns ++ [e]))
    (s, failures, uns)

/-- `addUnscheduledLocation()`: append the synthetic resource
`` `UN ${this.unscheduledCount}` `` (capacity 9999) and its fresh grid row.
`new Array(this.weekIntervals)` throws unless the JS `weekIntervals` is a
valid array length, i.e. `interval ≠ 0` (else it is `Infinity`/`NaN`) and
the stored value is in `[0, 2^32)`. -/
def addUnscheduledLocation (s : St) : Except String St :=
  if s.interval ≠ 0 ∧ 0 ≤ s.weekIntervals ∧ s.weekIntervals < 2 ^ 32 then
    let name := "UN " ++ natToStr s.unscheduledCount
    let loc := LocationR.mk s.locations.length name 9999
    .ok
      { s with
        locations := s.locations ++ [loc]
        grid := fun n => if n = name then List.replicate s.weekIntervals.toNat none else s.grid n
        unscheduledCount := s.unscheduledCount + 1 }
  else .error "RangeError: Invalid array length"

/-- One pass of the phase-4 loop body over `currentBatch = [...unscheduled]`,
removing every successfully placed activity from the pool
(`unscheduled.filter(e => e !== event)`). -/
def phase4Batch (s : St) (uns : List EventS) (newLoc : LocationR) : St × List EventS :=
  uns.foldl
    (fun acc e =>
      let (s, u) := acc
      let (ok, s') := placeEvent s e newLoc false
      if ok then (s', u.filter (fun x => x ≠ e)) else (s', u))
    (s, uns)

/-- The phase-4 `while (unscheduled.length > 0)` loop, with an iteration
counter.  Structural fuel stands in for the loop (the length strictly
decreases on every non-final iteration, so any fuel above the initial pool
size is enough — see `phase4Go_no_fuel_error`). -/
def phase4Go : Nat → St → List EventS → Except String (St × Nat)
  | 0, _, _ => .error "fuel"
  | fuel + 1, s, uns =>
    if uns.isEmpty then .ok (s, 0)
    else
      match addUnscheduledLocation s with
      | .error msg => .error msg
      | .ok s₁ =>
        let newLoc := s₁.locations.getLast?.getD default
        match phase4Batch s₁ uns newLoc with
        | (s₂, uns') =>
          if uns'.length = uns.length then .ok (s₂, 1)
          else
            match phase4Go fuel s₂ uns' with
            | .error msg => .error msg
            | .ok (s₃, n) => .ok (s₃, n + 1)

/-- Phase 4 — overflow containment. -/
def phase4 (s : St) (uns : List EventS) : Except String (St × Nat) :=
  phase4Go (uns.length + 1) s uns

/-- `calculateMetrics(events)`: classify every placed activity into a tier,
record it on the activity, and store the four counters. -/
def calculateMetrics (s : St) (events : List EventS) : St :=
  let step := fun (acc : St × Int × Int × Int × Int) (e : EventS) =>
    let (s, de, sa, pr, wr) := acc
    let d := s.evs e.id
    if d.placedLocation = "" then (s, de, sa, pr, wr)
    else
      let parts := jsSplit d.placedLocation ' '
      let placedBldg := parts.headD ""
      let placedRoom := parts.get? 1
      let tier : Nat :=
        if e.bldgCode = "nan" ∨ e.bldgCode = "" then 1
        else if e.bldgCode = placedBldg ∧ placedRoom = some e.roomNumber then 1
        else if e.bldgCode = placedBldg ∧ (e.roomNumber = "nan" ∨ e.roomNumber = "") then 1
        else if e.bldgCode = placedBldg then 2
        else if
          (match s.locationPreferences.find? (fun p => p.1 = e.dept) with
            | some p => p.2.contains placedBldg
            | none => false) then 3
        else 4
      let s' :=
        { s with evs := fun i => if i = e.id then { s.evs i with metric := tier } else s.evs i }
      if tier = 1 then (s', de + 1, sa, pr, wr)
      else if tier = 2 then (s', de, sa + 1, pr, wr)
      else if tier = 3 then (s', de, sa, pr + 1, wr)
      else (s', de, sa, pr, wr + 1)
  let r := events.foldl step (s, 0, 0, 0, 0)
  { r.1 with metrics := (r.2.1, r.2.2.1, r.2.2.2.1, r.2.2.2.2) }

/-- `createSchedule(events, seed)`.  Returns the failure counter, the final
schedule state and the shuffled event list (`{ failures, events }`; the
state carries the mutated outcome fields).  `entropy` is the
`Math.random()` draw used only when the seed is falsy. -/
def createSchedule (s0 : St) (events : List EventS) (seed entropy : Nat) :
    Except String (Nat × St × List EventS) :=
  let rng0 := randomInit seed entropy
  let s := resetEvents s0 events
  match shuffleJs rng0 events with
  | .error msg => .error msg
  | .ok (rng1, events') =>
    match phase1 s events' 0 [] [] with
    | (s, failures, waiting, final) =>
      match shuffleJs rng1 waiting with
      | .error msg => .error msg
      | .ok (rng2, waiting') =>
        match phase2 s waiting' failures final with
        | (s, failures, final) =>
          match shuffleJs rng2 final with
          | .error msg => .error msg
          | .ok (_rng3, final') =>
            match phase3 s final' failures [] with
            | (s, failures, unscheduled) =>
              match phase4 s unscheduled with
              | .error msg => .error msg
              | .ok (s, _iters) =>
                (.ok (failures, calculateMetrics s events', events') :
                  Except String (Nat × St × List EventS))

/-! ## Concrete scenarios used by witnesses and counterexamples -/

/-- Extract the observable outcome of a run for one event id: its
final `placedLocation` (or the thrown error). -/
def runOutcome (eid : Nat) (r : Except String (Nat × St × List EventS)) : String :=
  match r with
  | .ok x => (x.2.1.evs eid).placedLocation
  | .error e => e

/-- Two activities competing for the single desk `"X 1"`, identical
historical location and identical time window (Monday 8:00-8:10). -/
def exEvA : EventS := ⟨0, 5, "X", "1", "X", ⟨["M"], 480, 490⟩⟩

def exEvB : EventS := ⟨1, 5, "X", "1", "X", ⟨["M"], 480, 490⟩⟩

/-- Schedule over Mondays 8:00-17:00, 10-minute slots, no gap, one room. -/
def exS0 : St := (scheduleNew [("X 1", 50)] 480 1020 ["Monday"] 10 0).toOption.getD default

/-! ## C2 — determinism of `createSchedule` for a fixed seed -/

/-- C2 (amended): for every fixed schedule state, activity list and *nonzero*
seed, the run of `createSchedule` is independent of the `Math.random()` draw
(`entropy`), hence two independent invocations produce identical outcomes
(all outcome fields, the failure count and the metrics tuple).  The claim as
frozen says "every supplied seed"; seed `0` is falsy in the `Random`
constructor and falls into the nondeterministic branch
(`c2_seed_zero_not_reproducible`). -/
theorem c2_deterministic_nonzero_seed (s0 : St) (events : List EventS)
    (seed e1 e2 : Nat) (h : seed ≠ 0) :
    createSchedule s0 events seed e1 = createSchedule s0 events seed e2 := by
  unfold createSchedule
  rw [show randomInit seed e1 = randomInit seed e2 by simp [randomInit, h]]

theorem c2_deterministic_nonzero_seed_witness :
    (7 : Nat) ≠ 0 ∧
      createSchedule exS0 [exEvA, exEvB] 7 0 = createSchedule exS0 [exEvA, exEvB] 7 1 :=
  ⟨by decide, c2_deterministic_nonzero_seed exS0 [exEvA, exEvB] 7 0 1 (by decide)⟩

/-- C2 (counterexample): with the supplied seed `0`, two independent
invocations of `createSchedule` on identical input can place activity `0`
in different rooms (`"UN 0"` versus `"X 1"`), because seed `0` is replaced
by the `Math.random()` draw. -/
theorem c2_seed_zero_not_reproducible :
    runOutcome 0 (createSchedule exS0 [exEvA, exEvB] 0 0) ≠
      runOutcome 0 (createSchedule exS0 [exEvA, exEvB] 0 1) := by
  decide

/-! ## C10 — seed `0` falls back to the nondeterministic path -/

/-- C10: the `Random` constructor's truthiness test treats seed `0` like an
absent seed: the state is set to the `Math.random()`-derived value, never to
`0`; consequently two runs of `createSchedule` with seed `0` on identical
input are not guaranteed to produce identical results (witnessed by two
`Math.random()` draws that place activity `0` in different rooms). -/
theorem c10_seed_zero_uses_entropy :
    (∀ entropy : Nat, randomInit 0 entropy = entropy) ∧
      runOutcome 0 (createSchedule exS0 [exEvA, exEvB] 0 2) ≠
        runOutcome 0 (createSchedule exS0 [exEvA, exEvB] 0 3) := by
  constructor
  · intro entropy
    simp [randomInit]
  · decide

/-! ## C9 — range of `nextFloat()` -/

theorem log2F_spec : ∀ (fuel n : Nat), n ≤ fuel → 1 ≤ n →
    2 ^ log2F fuel n ≤ n ∧ n < 2 ^ (log2F fuel n + 1) := by
  intro fuel
  induction fuel with
  | zero => intro n h1 h2; omega
  | succ fuel ih =>
    intro n hle h1
    rw [log2F]
    by_cases h2 : 2 ≤ n
    · rw [if_pos h2]
      obtain ⟨ha, hb⟩ := ih (n / 2) (by omega) (by omega)
      have e1 : (2:Nat) ^ (log2F fuel (n / 2) + 1) = 2 * 2 ^ log2F fuel (n / 2) := by
        rw [Nat.pow_succ]; ring
      have e2 : (2:Nat) ^ (log2F fuel (n / 2) + 1 + 1) =
          2 * 2 ^ (log2F fuel (n / 2) + 1) := by
        rw [Nat.pow_succ _ (log2F fuel (n / 2) + 1)]; ring
      constructor
      · rw [e1]; omega
      · rw [e2, e1]; omega
    · rw [if_neg h2]
      have : n = 1 := by omega
      subst this
      norm_num

theorem ulpExp_spec (n : Nat) (h : 2 ^ 53 ≤ n) :
    1 ≤ ulpExp n ∧ 2 ^ (52 + ulpExp n) ≤ n := by
  have h1 : (1:Nat) ≤ n := le_trans (by norm_num) h
  obtain ⟨hlo, hhi⟩ := log2F_spec n n le_rfl h1
  have hL : 53 ≤ log2F n n := by
    by_contra hc
    push_neg at hc
    have hle : (2:Nat) ^ (log2F n n + 1) ≤ 2 ^ 53 :=
      Nat.pow_le_pow_right (by norm_num) (by omega)
    omega
  unfold ulpExp
  rw [if_neg (by omega)]
  refine ⟨by omega, ?_⟩
  have he : 52 + (log2F n n - 52) = log2F n n := by omega
  rw [he]
  exact hlo

/-- Integers below `2^53` are exactly representable: rounding is the
identity there. -/
theorem flN_eq_of_lt (n : Nat) (h : n < 2 ^ 53) : flN n = n := by
  unfold flN ulpExp
  rw [if_pos h]
  simp [Nat.mod_one, Nat.div_one]

/-- Rounding never drops below the bottom of the binade. -/
theorem flN_ge (n : Nat) (h : 2 ^ 53 ≤ n) : 2 ^ 53 ≤ flN n := by
  obtain ⟨he, hpow⟩ := ulpExp_spec n h
  unfold flN
  dsimp only
  have hdiv : (2:Nat) ^ (52 + ulpExp n) / 2 ^ ulpExp n = 2 ^ 52 := by
    rw [Nat.pow_div (by omega) (by norm_num)]
    congr 1
    omega
  have hq : 2 ^ 52 ≤ n / 2 ^ ulpExp n := by
    have hd : 2 ^ (52 + ulpExp n) / 2 ^ ulpExp n ≤ n / 2 ^ ulpExp n :=
      Nat.div_le_div_right hpow
    rwa [hdiv] at hd
  have hbr : ∀ Q : Nat, n / 2 ^ ulpExp n ≤ Q → 2 ^ 53 ≤ Q * 2 ^ ulpExp n := by
    intro Q hQ
    have h1 : (2:Nat) ^ 53 ≤ 2 ^ (52 + ulpExp n) :=
      Nat.pow_le_pow_right (by norm_num) (by omega)
    have h2 : (2:Nat) ^ (52 + ulpExp n) = 2 ^ 52 * 2 ^ ulpExp n := Nat.pow_add 2 52 _
    have h3 : 2 ^ 52 * 2 ^ ulpExp n ≤ Q * 2 ^ ulpExp n :=
      Nat.mul_le_mul_right _ (le_trans hq hQ)
    omega
  split
  · exact hbr _ le_rfl
  · split
    · exact hbr _ (Nat.le_succ _)
    · split
      · exact hbr _ le_rfl
      · exact hbr _ (Nat.le_succ _)

/-- From `2^53` upward the unit in the last place is at least `2`, so every
rounded value is even. -/
theorem flN_even (n : Nat) (h : 2 ^ 53 ≤ n) : flN n % 2 = 0 := by
  obtain ⟨he, _⟩ := ulpExp_spec n h
  unfold flN
  dsimp only
  have h2 : (2:Nat) ^ ulpExp n % 2 = 0 := by
    have hs : (2:Nat) ^ ulpExp n = 2 ^ (ulpExp n - 1) * 2 := by
      rw [← Nat.pow_succ]
      congr 1
      omega
    rw [hs, Nat.mul_mod_left]
  rw [Nat.mul_mod, h2, Nat.mul_zero, Nat.zero_mod]

/-- On the exact region (`a * state + c < 2^53`, i.e. states up to
`8162278`) the rounded step agrees with the exact-integer idealisation used
by the rest of this development. -/
theorem nextIntJs_eq_exact (state : Nat) (h : randA * state + randC < 2 ^ 53) :
    nextIntJs state = nextIntVal state := by
  have hc : randC = 12345 := rfl
  have h1 : randA * state < 2 ^ 53 := by omega
  unfold nextIntJs nextIntVal
  rw [flN_eq_of_lt _ h1, flN_eq_of_lt _ h]

/-- Where the two models part ways: at state `230538014` — the unique state
from which the exact-integer recurrence would produce `m - 1` — the double
product `a * 230538014` lies in `[2^57, 2^58)` and is `6` above a multiple
of the ulp `32`, so the engine rounds it down, rounds the subsequent `+ c`
up, and `nextInt()` returns `0`, not `m - 1`. -/
theorem nextIntJs_rounding_example :
    nextIntJs 230538014 = 0 ∧ nextIntVal 230538014 = randM - 1 :=
  ⟨by rfl, by decide⟩

/-- C9: `nextFloat()` lies in the half-open interval `[0, 1)` at every
state.  The step `this.a * this.state + this.c` is IEEE-754 double
arithmetic: once the product reaches `2^53` both roundings land on even
values, and the odd `m - 1` cannot come out of the modulus by an even
number; below `2^53` the arithmetic is exact, and the unique residue that
would yield `m - 1` is the state `230538014`, which lies far above the
exact region.  So `nextInt()` never returns `m - 1` and the division by
`m - 1` stays strictly below `1`. -/
theorem c9_nextFloat_range (state : Nat) :
    nextIntJs state < randM - 1 ∧ 0 ≤ nextFloatJs state ∧ nextFloatJs state < 1 := by
  have hM : randM = 2147483648 := rfl
  have hne : nextIntJs state ≠ randM - 1 := by
    by_cases hP : randA * state < 2 ^ 53
    · have hfl1 : flN (randA * state) = randA * state := flN_eq_of_lt _ hP
      by_cases hS : randA * state + randC < 2 ^ 53
      · intro hcontra
        unfold nextIntJs at hcontra
        rw [hfl1, flN_eq_of_lt _ hS] at hcontra
        have hb : state < randM := by
          by_contra hge
          push_neg at hge
          have h1 : randA * randM ≤ randA * state := Nat.mul_le_mul_left randA hge
          have h2 : (2:Nat) ^ 53 < randA * randM := by norm_num [randA, randM]
          omega
        have h1 : randA * state + randC ≡ randM - 1 [MOD randM] := by
          unfold Nat.ModEq
          rw [hcontra, Nat.mod_eq_of_lt (by norm_num [randM])]
        have h2 := h1.mul_left 1857678181
        have h4 : (1857678181 * randA) * state ≡ 1 * state [MOD randM] :=
          Nat.ModEq.mul_right state (by decide)
        have h5 : state + 1857678181 * randC ≡ 1857678181 * (randM - 1) [MOD randM] := by
          calc state + 1857678181 * randC
              ≡ (1857678181 * randA) * state + 1857678181 * randC [MOD randM] :=
                Nat.ModEq.add_right _ (by simpa using h4.symm)
            _ = 1857678181 * (randA * state + randC) := by ring
            _ ≡ 1857678181 * (randM - 1) [MOD randM] := h2
        have h6 : (230538014 : Nat) + 1857678181 * randC ≡
            1857678181 * (randM - 1) [MOD randM] := by decide
        have h7 : state ≡ 230538014 [MOD randM] :=
          Nat.ModEq.add_right_cancel' _ (h5.trans h6.symm)
        have h8 : state = 230538014 := by
          have h9 : state % randM = 230538014 % randM := h7
          rw [Nat.mod_eq_of_lt hb, Nat.mod_eq_of_lt (by norm_num [randM])] at h9
          exact h9
        rw [h8] at hP
        exact absurd hP (by norm_num [randA])
      · push_neg at hS
        intro hcontra
        unfold nextIntJs at hcontra
        rw [hfl1] at hcontra
        have heven := flN_even _ hS
        have hmm : flN (randA * state + randC) % randM % 2 =
            flN (randA * state + randC) % 2 :=
          Nat.mod_mod_of_dvd _ (by norm_num [randM])
        rw [hcontra, heven] at hmm
        exact absurd hmm (by norm_num [randM])
    · push_neg at hP
      intro hcontra
      unfold nextIntJs at hcontra
      have hS2 : 2 ^ 53 ≤ flN (randA * state) + randC :=
        le_trans (flN_ge _ hP) (Nat.le_add_right _ _)
      have heven := flN_even _ hS2
      have hmm : flN (flN (randA * state) + randC) % randM % 2 =
          flN (flN (randA * state) + randC) % 2 :=
        Nat.mod_mod_of_dvd _ (by norm_num [randM])
      rw [hcontra, heven] at hmm
      exact absurd hmm (by norm_num [randM])
  have hlt : nextIntJs state < randM := Nat.mod_lt _ (by norm_num [randM])
  refine ⟨by omega, ?_, ?_⟩
  · rw [nextFloatJs]
    exact div_nonneg (Nat.cast_nonneg _) (by norm_num [randM])
  · rw [nextFloatJs]
    rw [div_lt_one (by norm_num [randM])]
    have hcast : ((randM : ℚ) - 1) = ((randM - 1 : Nat) : ℚ) := by norm_num [randM]
    rw [hcast]
    exact_mod_cast lt_of_le_of_ne (by omega) hne

/-! ## C4 — configurations with `interval ≤ 0` are not rejected up front -/

/-- An activity for the `interval = 0` configuration runs. -/
def c4Ev : EventS := ⟨0, 5, "X", "1", "X", ⟨["M"], 480, 490⟩⟩

/-- The state accepted by the constructor for `interval = 0` and no rooms. -/
def c4S0 : St := (scheduleNew [] 480 1020 ["Monday"] 0 10).toOption.getD default

/-- C4 (the claim is right, the code lacks the check): the engine performs
no validation of the slot interval.  With `interval = 0` (or `-5`) and an
empty resource list the constructor succeeds, and `createSchedule` then
proceeds into the per-activity phases: a run with no activities completes
normally, and a run with one activity only dies later, inside the phase-4
overflow loop, with an accidental `RangeError` from `new Array(Infinity)` —
not with a precondition error before the run. -/
theorem c4_no_interval_validation :
    (scheduleNew [] 480 1020 ["Monday"] 0 10).isOk = true ∧
      (scheduleNew [] 480 1020 ["Monday"] (-5) 10).isOk = true ∧
      createSchedule c4S0 [] 7 0 = .ok (0, calculateMetrics (resetEvents c4S0 []) [], []) ∧
      createSchedule c4S0 [c4Ev] 7 0 = .error "RangeError: Invalid array length" := by
  refine ⟨by decide, by decide, by rfl, by rfl⟩

/-! ## Elementary facts about the placement state operations -/

theorem updateIndices_grid (s : St) (eid : Nat) (r : List (Int × Int)) :
    (updateIndices s eid r).grid = s.grid := by
  unfold updateIndices
  split <;> rfl

theorem updateIndices_config (s : St) (eid : Nat) (r : List (Int × Int)) :
    (updateIndices s eid r).locations = s.locations ∧
      (updateIndices s eid r).interval = s.interval ∧
      (updateIndices s eid r).timeGap = s.timeGap ∧
      (updateIndices s eid r).schStartMin = s.schStartMin ∧
      (updateIndices s eid r).schEndMin = s.schEndMin ∧
      (updateIndices s eid r).dayIntervals = s.dayIntervals ∧
      (updateIndices s eid r).dayOffsets = s.dayOffsets := by
  unfold updateIndices
  split <;> exact ⟨rfl, rfl, rfl, rfl, rfl, rfl, rfl⟩

theorem updateIndices_evs_other (s : St) (eid : Nat) (r : List (Int × Int))
    (i : Nat) (h : i ≠ eid) : (updateIndices s eid r).evs i = s.evs i := by
  unfold updateIndices
  split
  · rfl
  · simp [h]

theorem updateIndices_placedLocation (s : St) (eid : Nat) (r : List (Int × Int)) :
    ((updateIndices s eid r).evs eid).placedLocation = (s.evs eid).placedLocation := by
  unfold updateIndices
  split
  · rfl
  · simp

theorem updateIndices_of_empty (s : St) (eid : Nat) (r : List (Int × Int))
    (h : (s.evs eid).indices = []) :
    (updateIndices s eid r).evs eid = { s.evs eid with indices := r } := by
  unfold updateIndices
  simp [h]

theorem updateIndices_of_nonempty (s : St) (eid : Nat) (r : List (Int × Int))
    (h : (s.evs eid).indices ≠ []) : updateIndices s eid r = s := by
  unfold updateIndices
  simp [h]

theorem clearIndices_grid (s : St) (eid : Nat) : (clearIndices s eid).grid = s.grid := rfl

theorem clearIndices_evs_self (s : St) (eid : Nat) :
    (clearIndices s eid).evs eid = { s.evs eid with indices := [] } := by
  simp [clearIndices]

theorem clearIndices_evs_other (s : St) (eid : Nat) (i : Nat) (h : i ≠ eid) :
    (clearIndices s eid).evs i = s.evs i := by
  simp [clearIndices, h]

theorem commitPlacement_evs_self (s : St) (e : EventS) (locName : String)
    (ranges : List (Int × Int)) :
    ((commitPlacement s e locName ranges).evs e.id) =
      { s.evs e.id with placedLocation := locName } := by
  simp [commitPlacement]

theorem commitPlacement_evs_other (s : St) (e : EventS) (locName : String)
    (ranges : List (Int × Int)) (i : Nat) (h : i ≠ e.id) :
    (commitPlacement s e locName ranges).evs i = s.evs i := by
  simp [commitPlacement, h]

theorem commitPlacement_locations (s : St) (e : EventS) (locName : String)
    (ranges : List (Int × Int)) :
    (commitPlacement s e locName ranges).locations = s.locations := rfl

/-! ## C6 — failed placement attempts are transactional -/

/-- C6: whenever `placeEvent` returns failure on an activity whose recorded
slot-range list was empty at entry, nothing survives of the attempt: the
whole grid is untouched, the activity's `placedLocation` is untouched, and
its recorded slot-range list is empty again on return. -/
theorem c6_placeEvent_failure_transactional (s : St) (e : EventS) (loc : LocationR)
    (force : Bool) (s' : St) (hidx : (s.evs e.id).indices = [])
    (hrun : placeEvent s e loc force = (false, s')) :
    s'.grid = s.grid ∧
      (s'.evs e.id).placedLocation = (s.evs e.id).placedLocation ∧
      (s'.evs e.id).indices = [] := by
  unfold placeEvent at hrun
  by_cases hb : e.timeObj.startMin < s.schStartMin ∨ e.timeObj.endMin > s.schEndMin
  · rw [if_pos hb] at hrun
    cases hrun
    exact ⟨rfl, rfl, hidx⟩
  · rw [if_neg hb] at hrun
    set ranges := getIndicesForEvent s e.timeObj with hranges
    by_cases hemp : ranges.isEmpty
    · rw [if_pos hemp] at hrun
      cases hrun
      refine ⟨updateIndices_grid .., updateIndices_placedLocation .., ?_⟩
      rw [updateIndices_of_empty s e.id ranges hidx]
      simpa using List.isEmpty_iff.mp hemp
    · rw [if_neg hemp] at hrun
      by_cases hcap : (!force && decide (e.seats > loc.capacity)) = true
      · rw [if_pos hcap] at hrun
        cases hrun
        refine ⟨?_, ?_, ?_⟩
        · rw [clearIndices_grid, updateIndices_grid]
        · rw [clearIndices_evs_self]
          exact updateIndices_placedLocation ..
        · rw [clearIndices_evs_self]
      · rw [if_neg hcap] at hrun
        by_cases hrej : (!force &&
            ranges.any fun r =>
              rangeRejected (updateIndices s e.id ranges)
                ((updateIndices s e.id ranges).grid loc.name) r) = true
        · rw [if_pos hrej] at hrun
          cases hrun
          refine ⟨?_, ?_, ?_⟩
          · rw [clearIndices_grid, updateIndices_grid]
          · rw [clearIndices_evs_self]
            exact updateIndices_placedLocation ..
          · rw [clearIndices_evs_self]
        · rw [if_neg hrej] at hrun
          cases hrun

theorem c6_placeEvent_failure_transactional_witness :
    (exS0.evs exEvA.id).indices = [] ∧
      ((placeEvent exS0 exEvA ⟨0, "X 1", 1⟩ false).2.grid = exS0.grid ∧
        ((placeEvent exS0 exEvA ⟨0, "X 1", 1⟩ false).2.evs exEvA.id).placedLocation =
          (exS0.evs exEvA.id).placedLocation ∧
        ((placeEvent exS0 exEvA ⟨0, "X 1", 1⟩ false).2.evs exEvA.id).indices = []) :=
  ⟨by decide,
    c6_placeEvent_failure_transactional exS0 exEvA ⟨0, "X 1", 1⟩ false
      (placeEvent exS0 exEvA ⟨0, "X 1", 1⟩ false).2 (by decide) (by rfl)⟩

/-! ## C7 — a rejected write-once recording is silently ignored -/

/-- A state in which activity `0` already carries a recorded range. -/
def c7S : St :=
  { exS0 with evs := fun i => if i = 0 then ⟨[(40, 41)], "", 0⟩ else exS0.evs i }

/-- C7 (counterexample): `placeEvent` called on an activity whose recorded
slot-range list is already non-empty does *not* treat the rejected
`updateIndices` write as a fatal precondition violation: the boolean result
of the write is discarded and the placement proceeds — here it succeeds. -/
theorem c7_stale_ranges_not_fatal :
    (c7S.evs exEvA.id).indices ≠ [] ∧
      (placeEvent c7S exEvA ⟨0, "X 1", 50⟩ false).1 = true := by
  exact ⟨by decide, by decide⟩

/-- C7 (amended): when `placeEvent` is called on an activity whose recorded
slot-range list is non-empty, the rejected write is ignored: the run
continues with freshly computed ranges, and on success the activity keeps
its stale recorded ranges while its `placedLocation` is overwritten with
the new resource. -/
theorem c7_stale_ranges_ignored (s : St) (e : EventS) (loc : LocationR) (s' : St)
    (hidx : (s.evs e.id).indices ≠ [])
    (hrun : placeEvent s e loc false = (true, s')) :
    (s'.evs e.id).indices = (s.evs e.id).indices ∧
      (s'.evs e.id).placedLocation = loc.name := by
  unfold placeEvent at hrun
  by_cases hb : e.timeObj.startMin < s.schStartMin ∨ e.timeObj.endMin > s.schEndMin
  · rw [if_pos hb] at hrun
    cases hrun
  · rw [if_neg hb] at hrun
    dsimp only at hrun
    rw [updateIndices_of_nonempty s e.id _ hidx] at hrun
    by_cases hemp : (getIndicesForEvent s e.timeObj).isEmpty
    · rw [if_pos hemp] at hrun
      cases hrun
    · rw [if_neg hemp] at hrun
      by_cases hcap : (!false && decide (e.seats > loc.capacity)) = true
      · rw [if_pos hcap] at hrun
        cases hrun
      · rw [if_neg hcap] at hrun
        by_cases hrej : (!false && (getIndicesForEvent s e.timeObj).any fun r =>
            rangeRejected s (s.grid loc.name) r) = true
        · rw [if_pos hrej] at hrun
          cases hrun
        · rw [if_neg hrej] at hrun
          cases hrun
          rw [commitPlacement_evs_self]
          exact ⟨rfl, rfl⟩

theorem c7_stale_ranges_ignored_witness :
    (c7S.evs exEvA.id).indices ≠ [] ∧
      (((placeEvent c7S exEvA ⟨0, "X 1", 50⟩ false).2.evs exEvA.id).indices =
          (c7S.evs exEvA.id).indices ∧
        ((placeEvent c7S exEvA ⟨0, "X 1", 50⟩ false).2.evs exEvA.id).placedLocation =
          "X 1") :=
  ⟨by decide,
    c7_stale_ranges_ignored c7S exEvA ⟨0, "X 1", 50⟩
      (placeEvent c7S exEvA ⟨0, "X 1", 50⟩ false).2 (by decide) (by rfl)⟩

/-! ## C3 — the minimum-gap scan around a placed range -/

theorem rangeRejected_congr (s s' : St) (g : List Cell) (r : Int × Int)
    (h1 : s'.timeGap = s.timeGap) (h2 : s'.interval = s.interval) :
    rangeRejected s' g r = rangeRejected s g r := by
  unfold rangeRejected checkTimeGap
  rw [h1, h2]

/-- C3 (amended): when `minGap > 0` and `placeEvent` (no override) accepts
an activity, then every accepted range whose start index is *nonzero* had
an empty neighborhood on both sides: the `ceil(gap/interval)` slots before
the range (where they exist) and after the range (inside the array) were
all empty in the grid the attempt started from.  The frozen claim further
asserts that for a range starting at absolute index `0` the post-range scan
still happens; it does not — the source guards the whole `checkTimeGap`
call with `start !== 0`, so both halves of the scan are skipped
(`c3_zero_start_skips_whole_gap_check`). -/
theorem c3_gap_scan_on_success (s : St) (e : EventS) (loc : LocationR) (s' : St)
    (hgap : s.timeGap ≠ 0)
    (hrun : placeEvent s e loc false = (true, s')) :
    ∀ r ∈ getIndicesForEvent s e.timeObj, r.1 ≠ 0 →
      ∀ i : Nat, i < (jsCeilDiv s.timeGap s.interval).toNat →
        (0 ≤ r.1 - ((i : Int) + 1) →
          cellNonZero (s.grid loc.name) (r.1 - ((i : Int) + 1)) = false) ∧
        (r.2 + (i : Int) < ((s.grid loc.name).length : Int) →
          cellNonZero (s.grid loc.name) (r.2 + (i : Int)) = false) := by
  unfold placeEvent at hrun
  by_cases hb : e.timeObj.startMin < s.schStartMin ∨ e.timeObj.endMin > s.schEndMin
  · rw [if_pos hb] at hrun
    cases hrun
  · rw [if_neg hb] at hrun
    dsimp only at hrun
    by_cases hemp : (getIndicesForEvent s e.timeObj).isEmpty
    · rw [if_pos hemp] at hrun
      cases hrun
    · rw [if_neg hemp] at hrun
      by_cases hcap : (!false && decide (e.seats > loc.capacity)) = true
      · rw [if_pos hcap] at hrun
        cases hrun
      · rw [if_neg hcap] at hrun
        by_cases hrej : (!false && (getIndicesForEvent s e.timeObj).any fun r =>
            rangeRejected (updateIndices s e.id (getIndicesForEvent s e.timeObj))
              ((updateIndices s e.id (getIndicesForEvent s e.timeObj)).grid loc.name) r) = true
        · rw [if_pos hrej] at hrun
          cases hrun
        · rw [if_neg hrej] at hrun
          simp only [Bool.not_false, Bool.true_and, Bool.not_eq_true] at hrej
          rw [updateIndices_grid] at hrej
          intro r hr hr1 i hi
          have hfr : rangeRejected s (s.grid loc.name) r = false := by
            have h := List.any_eq_false.mp hrej r hr
            rw [rangeRejected_congr s (updateIndices s e.id (getIndicesForEvent s e.timeObj))
              (s.grid loc.name) r (updateIndices_config s e.id _).2.2.1
              (updateIndices_config s e.id _).2.1] at h
            exact Bool.eq_false_iff.mpr h
          unfold rangeRejected at hfr
          rw [Bool.or_eq_false_iff] at hfr
          have hgapchk : checkTimeGap s (s.grid loc.name) r.1 r.2 = false := by
            have := hfr.1
            rwa [decide_eq_true hr1, Bool.true_and] at this
          unfold checkTimeGap at hgapchk
          rw [if_neg (by simpa using hgap)] at hgapchk
          rw [Bool.or_eq_false_iff] at hgapchk
          have h1 := List.any_eq_false.mp hgapchk.1 i (List.mem_range.mpr hi)
          have h2 := List.any_eq_false.mp hgapchk.2 i (List.mem_range.mpr hi)
          dsimp only at h1 h2
          constructor
          · intro hge
            rw [decide_eq_true hge, Bool.true_and] at h1
            exact Bool.eq_false_iff.mpr h1
          · intro hlt
            rw [decide_eq_true hlt, Bool.true_and] at h2
            exact Bool.eq_false_iff.mpr h2

/-- A schedule with `timeGap = 10` whose single grid has slot 1 occupied. -/
def c3S : St :=
  let base := (scheduleNew [("X 1", 50)] 480 1020 ["Monday"] 10 10).toOption.getD default
  { base with
    grid := fun n => if n = "X 1" then (List.replicate 54 (none : Cell)).set 1 (some 99)
      else base.grid n }

/-- The activity occupying exactly slot 0 (Monday 8:00-8:10). -/
def c3Ev : EventS := ⟨0, 5, "X", "1", "X", ⟨["M"], 480, 490⟩⟩

theorem c3_gap_scan_on_success_witness :
    (10 : Int) ≠ 0 ∧
      ((placeEvent { c3S with timeGap := 10 } ⟨1, 5, "X", "1", "X", ⟨["M"], 530, 540⟩⟩
          ⟨0, "X 1", 50⟩ false).1 = true) ∧
      (∀ r ∈ getIndicesForEvent { c3S with timeGap := 10 }
          (⟨1, 5, "X", "1", "X", ⟨["M"], 530, 540⟩⟩ : EventS).timeObj, r.1 ≠ 0 →
        ∀ i : Nat, i < (jsCeilDiv (10 : Int) (10 : Int)).toNat →
          (0 ≤ r.1 - ((i : Int) + 1) →
            cellNonZero (({ c3S with timeGap := 10 } : St).grid "X 1")
              (r.1 - ((i : Int) + 1)) = false) ∧
          (r.2 + (i : Int) < ((({ c3S with timeGap := 10 } : St).grid "X 1").length : Int) →
            cellNonZero (({ c3S with timeGap := 10 } : St).grid "X 1")
              (r.2 + (i : Int)) = false)) := by
  refine ⟨by decide, by decide, ?_⟩
  exact c3_gap_scan_on_success { c3S with timeGap := 10 }
    ⟨1, 5, "X", "1", "X", ⟨["M"], 530, 540⟩⟩ ⟨0, "X 1", 50⟩ _ (by decide) (by rfl)

/-- C3 (counterexample): for a range beginning at absolute index `0` the
source skips the whole gap check, including the post-range half.  Here the
slot immediately after the accepted range `(0, 1)` is occupied and
`timeGap = 10` (one gap slot), yet `placeEvent` succeeds — under the frozen
claim the still-performed post-range scan would have rejected the
placement. -/
theorem c3_zero_start_skips_whole_gap_check :
    c3S.timeGap ≠ 0 ∧
      getIndicesForEvent c3S c3Ev.timeObj = [(0, 1)] ∧
      cellNonZero (c3S.grid "X 1") 1 = true ∧
      (placeEvent c3S c3Ev ⟨0, "X 1", 50⟩ false).1 = true := by
  exact ⟨by decide, by rfl, by decide, by decide⟩

/-! ## Shape of a `placeEvent` result -/

/-- `placeEvent` changes at most the grid and the event outcome map. -/
theorem placeEvent_shape (s : St) (e : EventS) (loc : LocationR) (force : Bool) :
    ∃ g ev, (placeEvent s e loc force).2 = { s with grid := g, evs := ev } := by
  unfold placeEvent updateIndices clearIndices commitPlacement
  dsimp only
  repeat' split
  all_goals exact ⟨_, _, rfl⟩

theorem placeEvent_locations (s : St) (e : EventS) (loc : LocationR) (force : Bool) :
    (placeEvent s e loc force).2.locations = s.locations := by
  obtain ⟨g, ev, h⟩ := placeEvent_shape s e loc force
  rw [h]

theorem placeEvent_unscheduledCount (s : St) (e : EventS) (loc : LocationR) (force : Bool) :
    (placeEvent s e loc force).2.unscheduledCount = s.unscheduledCount := by
  obtain ⟨g, ev, h⟩ := placeEvent_shape s e loc force
  rw [h]

theorem placeEvent_config (s : St) (e : EventS) (loc : LocationR) (force : Bool) :
    (placeEvent s e loc force).2.interval = s.interval ∧
      (placeEvent s e loc force).2.timeGap = s.timeGap ∧
      (placeEvent s e loc force).2.schStartMin = s.schStartMin ∧
      (placeEvent s e loc force).2.schEndMin = s.schEndMin ∧
      (placeEvent s e loc force).2.dayIntervals = s.dayIntervals ∧
      (placeEvent s e loc force).2.dayOffsets = s.dayOffsets ∧
      (placeEvent s e loc force).2.weekIntervals = s.weekIntervals ∧
      (placeEvent s e loc force).2.locationPreferences = s.locationPreferences := by
  obtain ⟨g, ev, h⟩ := placeEvent_shape s e loc force
  rw [h]
  exact ⟨rfl, rfl, rfl, rfl, rfl, rfl, rfl, rfl⟩

/-- A `placeEvent` call never touches the outcome fields of another event
object. -/
theorem placeEvent_evs_other (s : St) (e : EventS) (loc : LocationR) (force : Bool)
    (i : Nat) (h : i ≠ e.id) : (placeEvent s e loc force).2.evs i = s.evs i := by
  unfold placeEvent
  by_cases hb : e.timeObj.startMin < s.schStartMin ∨ e.timeObj.endMin > s.schEndMin
  · rw [if_pos hb]
  · rw [if_neg hb]
    dsimp only
    set ranges := getIndicesForEvent s e.timeObj with hr
    by_cases hemp : ranges.isEmpty
    · rw [if_pos hemp]
      exact updateIndices_evs_other s e.id ranges i h
    · rw [if_neg hemp]
      by_cases hcap : (!force && decide (e.seats > loc.capacity)) = true
      · rw [if_pos hcap]
        rw [show ((false, clearIndices (updateIndices s e.id ranges) e.id)).2 =
          clearIndices (updateIndices s e.id ranges) e.id from rfl]
        rw [clearIndices_evs_other _ _ _ h, updateIndices_evs_other s e.id ranges i h]
      · rw [if_neg hcap]
        split
        · rw [show ((false, clearIndices (updateIndices s e.id ranges) e.id)).2 =
            clearIndices (updateIndices s e.id ranges) e.id from rfl]
          rw [clearIndices_evs_other _ _ _ h, updateIndices_evs_other s e.id ranges i h]
        · rw [show ((true, commitPlacement (updateIndices s e.id ranges) e loc.name ranges)).2 =
            commitPlacement (updateIndices s e.id ranges) e loc.name ranges from rfl]
          rw [commitPlacement_evs_other _ _ _ _ _ h, updateIndices_evs_other s e.id ranges i h]

/-- On success the activity's `placedLocation` is the target resource; on
failure it is untouched. -/
theorem placeEvent_placedLocation (s : St) (e : EventS) (loc : LocationR) (force : Bool) :
    ((placeEvent s e loc force).1 = true →
      ((placeEvent s e loc force).2.evs e.id).placedLocation = loc.name) ∧
    ((placeEvent s e loc force).1 = false →
      ((placeEvent s e loc force).2.evs e.id).placedLocation =
        (s.evs e.id).placedLocation) := by
  unfold placeEvent
  by_cases hb : e.timeObj.startMin < s.schStartMin ∨ e.timeObj.endMin > s.schEndMin
  · rw [if_pos hb]
    exact ⟨fun h => (nomatch h), fun _ => rfl⟩
  · rw [if_neg hb]
    dsimp only
    set ranges := getIndicesForEvent s e.timeObj with hr
    by_cases hemp : ranges.isEmpty
    · rw [if_pos hemp]
      exact ⟨fun h => (nomatch h), fun _ => updateIndices_placedLocation ..⟩
    · rw [if_neg hemp]
      by_cases hcap : (!force && decide (e.seats > loc.capacity)) = true
      · rw [if_pos hcap]
        refine ⟨fun h => (nomatch h), fun _ => ?_⟩
        rw [show ((false, clearIndices (updateIndices s e.id ranges) e.id)).2 =
          clearIndices (updateIndices s e.id ranges) e.id from rfl]
        rw [clearIndices_evs_self]
        exact updateIndices_placedLocation ..
      · rw [if_neg hcap]
        split
        · refine ⟨fun h => (nomatch h), fun _ => ?_⟩
          rw [show ((false, clearIndices (updateIndices s e.id ranges) e.id)).2 =
            clearIndices (updateIndices s e.id ranges) e.id from rfl]
          rw [clearIndices_evs_self]
          exact updateIndices_placedLocation ..
        · refine ⟨fun _ => ?_, fun h => nomatch h⟩
          rw [show ((true, commitPlacement (updateIndices s e.id ranges) e loc.name ranges)).2 =
            commitPlacement (updateIndices s e.id ranges) e loc.name ranges from rfl]
          rw [commitPlacement_evs_self]

/-! ## Facts about the candidate-try loop -/

theorem tryLocs_locations (e : EventS) :
    ∀ (cands : List LocationR) (s : St),
      (tryLocs s e cands).2.locations = s.locations := by
  intro cands
  induction cands with
  | nil => exact fun s => rfl
  | cons l rest ih =>
    intro s
    cases hpe : placeEvent s e l false with
    | mk ok s' =>
      have hloc := placeEvent_locations s e l false
      rw [hpe] at hloc
      rw [tryLocs, hpe]
      dsimp only
      cases ok
      · rw [if_neg (by simp)]
        exact (ih s').trans hloc
      · rw [if_pos rfl]
        exact hloc

theorem tryLocs_evs_other (e : EventS) (i : Nat) (h : i ≠ e.id) :
    ∀ (cands : List LocationR) (s : St),
      (tryLocs s e cands).2.evs i = s.evs i := by
  intro cands
  induction cands with
  | nil => exact fun s => rfl
  | cons l rest ih =>
    intro s
    cases hpe : placeEvent s e l false with
    | mk ok s' =>
      have hev := placeEvent_evs_other s e l false i h
      rw [hpe] at hev
      rw [tryLocs, hpe]
      dsimp only
      cases ok
      · rw [if_neg (by simp)]
        exact (ih s').trans hev
      · rw [if_pos rfl]
        exact hev

/-- After the try loop, the activity is either untouched (`placedLocation`
as before) or recorded at one of the tried candidates. -/
theorem tryLocs_placed (e : EventS) :
    ∀ (cands : List LocationR) (s : St),
      ((tryLocs s e cands).2.evs e.id).placedLocation = (s.evs e.id).placedLocation ∨
        ∃ l ∈ cands, ((tryLocs s e cands).2.evs e.id).placedLocation = l.name := by
  intro cands
  induction cands with
  | nil => exact fun s => Or.inl rfl
  | cons l rest ih =>
    intro s
    cases hpe : placeEvent s e l false with
    | mk ok s' =>
      have hpl := placeEvent_placedLocation s e l false
      rw [hpe] at hpl
      rw [tryLocs, hpe]
      dsimp only
      cases ok
      · rw [if_neg (by simp)]
        rcases ih s' with h | ⟨l', hl', hn⟩
        · rw [h, hpl.2 rfl]
          exact Or.inl rfl
        · exact Or.inr ⟨l', List.mem_cons_of_mem _ hl', hn⟩
      · rw [if_pos rfl]
        exact Or.inr ⟨l, List.mem_cons_self .., hpl.1 rfl⟩

/-! ## Structure of the phase-2 loop -/

theorem phase2_cons (s : St) (e : EventS) (rest : List EventS) (f : Nat)
    (fin : List EventS) :
    phase2 s (e :: rest) f fin =
      if (findLocsByBldg s e.bldgCode).isEmpty then phase2 s rest f (fin ++ [e])
      else if (tryLocs s e (findLocsByBldg s e.bldgCode)).1 then
        phase2 (tryLocs s e (findLocsByBldg s e.bldgCode)).2 rest f fin
      else phase2 (tryLocs s e (findLocsByBldg s e.bldgCode)).2 rest (f + 1) (fin ++ [e]) := by
  show (e :: rest).foldl _ (s, f, fin) = _
  rw [List.foldl_cons]
  dsimp only
  by_cases hemp : (findLocsByBldg s e.bldgCode).isEmpty
  · rw [if_pos hemp, if_pos hemp]
    rfl
  · rw [if_neg hemp, if_neg hemp]
    cases htl : tryLocs s e (findLocsByBldg s e.bldgCode) with
    | mk ok s' =>
      dsimp only
      cases ok
      · rw [if_neg (by simp)]
        rfl
      · rw [if_pos rfl]
        rfl

theorem phase2_locations :
    ∀ (waiting : List EventS) (s : St) (f : Nat) (fin : List EventS),
      (phase2 s waiting f fin).1.locations = s.locations := by
  intro waiting
  induction waiting with
  | nil => intro s f fin; rfl
  | cons e rest ih =>
    intro s f fin
    rw [phase2_cons]
    by_cases hemp : (findLocsByBldg s e.bldgCode).isEmpty
    · rw [if_pos hemp]
      exact ih ..
    · rw [if_neg hemp]
      split
      · exact (ih ..).trans (tryLocs_locations ..)
      · exact (ih ..).trans (tryLocs_locations ..)

theorem phase2_untouched :
    ∀ (waiting : List EventS) (s : St) (f : Nat) (fin : List EventS) (i : Nat),
      i ∉ waiting.map (·.id) → (phase2 s waiting f fin).1.evs i = s.evs i := by
  intro waiting
  induction waiting with
  | nil => intro s f fin i _; rfl
  | cons e rest ih =>
    intro s f fin i hi
    rw [List.map_cons, List.mem_cons] at hi
    push_neg at hi
    rw [phase2_cons]
    by_cases hemp : (findLocsByBldg s e.bldgCode).isEmpty
    · rw [if_pos hemp]
      exact ih _ _ _ i hi.2
    · rw [if_neg hemp]
      split
      · exact (ih _ _ _ i hi.2).trans (tryLocs_evs_other e i hi.1 ..)
      · exact (ih _ _ _ i hi.2).trans (tryLocs_evs_other e i hi.1 ..)

/-! ## C5 — the phase-2 candidate set -/

/-- C5 (amended): in phase 2 every activity is attempted exactly at
`findLocsByBldg`, the resources whose *name starts with* the activity's
building-code string — a superset of the same-building resources that can
also contain resources of a different building (`c5_building_prefix_confusion`).
Consequently, phase 2 either leaves an activity's `placedLocation` untouched
or records it at a resource whose name starts with the activity's building
code. -/
theorem c5_phase2_candidates_are_prefix_matches
    (waiting : List EventS) (s : St) (f : Nat) (fin : List EventS)
    (hnd : (waiting.map (·.id)).Nodup) :
    ∀ e ∈ waiting,
      ((phase2 s waiting f fin).1.evs e.id).placedLocation =
          (s.evs e.id).placedLocation ∨
        ∃ l ∈ s.locations, jsStartsWith l.name e.bldgCode = true ∧
          ((phase2 s waiting f fin).1.evs e.id).placedLocation = l.name := by
  induction waiting generalizing s f fin with
  | nil => intro e he; cases he
  | cons e' rest ih =>
    rw [List.map_cons, List.nodup_cons] at hnd
    intro e he
    rcases List.mem_cons.mp he with rfl | hmem
    · -- the head activity: its own processing step decides the outcome
      rw [phase2_cons]
      by_cases hemp : (findLocsByBldg s e.bldgCode).isEmpty
      · rw [if_pos hemp]
        rw [phase2_untouched rest _ _ _ e.id hnd.1]
        exact Or.inl rfl
      · rw [if_neg hemp]
        have hplaced := tryLocs_placed e (findLocsByBldg s e.bldgCode) s
        have huntouched : ∀ s₂ f₂ fin₂, (phase2 s₂ rest f₂ fin₂).1.evs e.id = s₂.evs e.id :=
          fun s₂ f₂ fin₂ => phase2_untouched rest s₂ f₂ fin₂ e.id hnd.1
        split
        · rw [huntouched]
          rcases hplaced with h | ⟨l, hl, hn⟩
          · exact Or.inl h
          · refine Or.inr ⟨l, ?_, ?_, hn⟩
            · exact (List.mem_filter.mp hl).1
            · exact (List.mem_filter.mp hl).2
        · rw [huntouched]
          rcases hplaced with h | ⟨l, hl, hn⟩
          · exact Or.inl h
          · refine Or.inr ⟨l, ?_, ?_, hn⟩
            · exact (List.mem_filter.mp hl).1
            · exact (List.mem_filter.mp hl).2
    · -- an activity further down: transport the induction hypothesis
      have hne : e.id ≠ e'.id := by
        intro hcontra
        exact hnd.1 (hcontra ▸ List.mem_map_of_mem (·.id) hmem)
      rw [phase2_cons]
      by_cases hemp : (findLocsByBldg s e'.bldgCode).isEmpty
      · rw [if_pos hemp]
        exact ih _ _ _ hnd.2 e hmem
      · rw [if_neg hemp]
        have hsl := tryLocs_locations e' (findLocsByBldg s e'.bldgCode) s
        have hse := tryLocs_evs_other e' e.id hne (findLocsByBldg s e'.bldgCode) s
        split
        · rcases ih (tryLocs s e' (findLocsByBldg s e'.bldgCode)).2 f fin hnd.2 e hmem with
            h | ⟨l, hl, hpre, hn⟩
          · rw [h, hse]
            exact Or.inl rfl
          · exact Or.inr ⟨l, hsl ▸ hl, hpre, hn⟩
        · rcases ih (tryLocs s e' (findLocsByBldg s e'.bldgCode)).2 (f + 1) (fin ++ [e'])
              hnd.2 e hmem with h | ⟨l, hl, hpre, hn⟩
          · rw [h, hse]
            exact Or.inl rfl
          · exact Or.inr ⟨l, hsl ▸ hl, hpre, hn⟩

/-- The phase-2 counterexample activity: historical building code `"A"`,
room unknown, so phase 1 routes it to the same-building pool. -/
def c5Ev : EventS := ⟨0, 5, "A", "undefined", "A", ⟨["M"], 480, 490⟩⟩

/-- One resource, in building `"AB"` — a *different* building whose name
merely starts with `"A"`. -/
def c5S0 : St := (scheduleNew [("AB 1", 50)] 480 1020 ["Monday"] 10 0).toOption.getD default

/-- C5 (counterexample): the frozen claim says the phase-2 candidate set
contains exactly the resources whose building code equals the activity's
building code.  Here no resource has building code `"A"` — the only
resource is `"AB 1"` of building `"AB"` — yet phase 2 tries it (the
`startsWith` filter matches) and places the activity there. -/
theorem c5_building_prefix_confusion :
    c5Ev.bldgCode = "A" ∧
      (∀ l ∈ c5S0.locations, l.building ≠ c5Ev.bldgCode) ∧
      ((phase2 (resetEvents c5S0 [c5Ev]) [c5Ev] 0 []).1.evs 0).placedLocation = "AB 1" := by
  exact ⟨rfl, by decide, by rfl⟩

theorem c5_phase2_candidates_are_prefix_matches_witness :
    ([c5Ev].map (·.id)).Nodup ∧
      (((phase2 (resetEvents c5S0 [c5Ev]) [c5Ev] 0 []).1.evs c5Ev.id).placedLocation =
          ((resetEvents c5S0 [c5Ev]).evs c5Ev.id).placedLocation ∨
        ∃ l ∈ (resetEvents c5S0 [c5Ev]).locations,
          jsStartsWith l.name c5Ev.bldgCode = true ∧
            ((phase2 (resetEvents c5S0 [c5Ev]) [c5Ev] 0 []).1.evs c5Ev.id).placedLocation =
              l.name) :=
  ⟨by decide,
    c5_phase2_candidates_are_prefix_matches [c5Ev] (resetEvents c5S0 [c5Ev]) 0 []
      (by decide) c5Ev (by decide)⟩

/-! ## C8 — termination of the overflow loop -/

theorem phase4Batch_length_le (s : St) (uns : List EventS) (newLoc : LocationR) :
    ((phase4Batch s uns newLoc).2).length ≤ uns.length := by
  have aux : ∀ (batch : List EventS) (acc : St × List EventS),
      ((batch.foldl
        (fun acc e =>
          let (s, u) := acc
          let (ok, s') := placeEvent s e newLoc false
          if ok then (s', u.filter (fun x => x ≠ e)) else (s', u)) acc).2).length ≤
        acc.2.length := by
    intro batch
    induction batch with
    | nil => intro acc; exact le_refl _
    | cons e rest ih =>
      intro acc
      rw [List.foldl_cons]
      refine le_trans (ih _) ?_
      obtain ⟨s₀, u₀⟩ := acc
      dsimp only
      cases hok : (placeEvent s₀ e newLoc false).1
      · rw [if_neg (by simp [hok])]
      · rw [if_pos (by simp [hok])]
        exact List.length_filter_le _ _
  exact aux uns (s, uns)

theorem phase4Go_count_le :
    ∀ (fuel : Nat) (s : St) (uns : List EventS) (s' : St) (n : Nat),
      phase4Go fuel s uns = .ok (s', n) → n ≤ uns.length := by
  intro fuel
  induction fuel with
  | zero => intro s uns s' n h; cases h
  | succ fuel ih =>
    intro s uns s' n h
    rw [phase4Go] at h
    by_cases hemp : uns.isEmpty
    · rw [if_pos hemp] at h
      cases h
      exact Nat.zero_le _
    · rw [if_neg hemp] at h
      cases hadd : addUnscheduledLocation s with
      | error msg =>
        rw [hadd] at h
        cases h
      | ok s₁ =>
        rw [hadd] at h
        dsimp only at h
        cases hbatch : phase4Batch s₁ uns (s₁.locations.getLast?.getD default) with
        | mk s₂ uns' =>
          rw [hbatch] at h
          dsimp only at h
          by_cases hlen : uns'.length = uns.length
          · rw [if_pos hlen] at h
            cases h
            have hne : uns ≠ [] := fun hc => by simp [hc] at hemp
            have : 0 < uns.length := List.length_pos.mpr hne
            omega
          · rw [if_neg hlen] at h
            cases hrec : phase4Go fuel s₂ uns' with
            | error msg => rw [hrec] at h; cases h
            | ok p =>
              obtain ⟨s₃, m⟩ := p
              rw [hrec] at h
              simp only [Except.ok.injEq, Prod.mk.injEq] at h
              have hle : m ≤ uns'.length := ih s₂ uns' s₃ m hrec
              have hlt : uns'.length < uns.length := by
                have hb := phase4Batch_length_le s₁ uns (s₁.locations.getLast?.getD default)
                rw [hbatch] at hb
                dsimp only at hb
                omega
              omega

/-- The fuel of `phase4Go` can only run out when it is at most the size of
the unscheduled pool; `phase4` supplies `length + 1`, so the fuel encoding
never cuts the loop short — the JS `while` loop itself terminates within
the claimed bound. -/
theorem phase4Go_fuel_error :
    ∀ (fuel : Nat) (s : St) (uns : List EventS),
      phase4Go fuel s uns = .error "fuel" → fuel ≤ uns.length := by
  intro fuel
  induction fuel with
  | zero => intro s uns _; exact Nat.zero_le _
  | succ fuel ih =>
    intro s uns h
    rw [phase4Go] at h
    by_cases hemp : uns.isEmpty
    · rw [if_pos hemp] at h
      cases h
    · rw [if_neg hemp] at h
      cases hadd : addUnscheduledLocation s with
      | error msg =>
        rw [hadd] at h
        dsimp only at h
        have hmsg : msg = "fuel" := Except.error.inj h
        unfold addUnscheduledLocation at hadd
        split at hadd
        · cases hadd
        · exact absurd ((Except.error.inj hadd).trans hmsg) (by decide)
      | ok s₁ =>
        rw [hadd] at h
        dsimp only at h
        cases hbatch : phase4Batch s₁ uns (s₁.locations.getLast?.getD default) with
        | mk s₂ uns' =>
          rw [hbatch] at h
          dsimp only at h
          by_cases hlen : uns'.length = uns.length
          · rw [if_pos hlen] at h
            cases h
          · rw [if_neg hlen] at h
            cases hrec : phase4Go fuel s₂ uns' with
            | error msg =>
              rw [hrec] at h
              cases h
              have : fuel ≤ uns'.length := ih s₂ uns' hrec
              have hb := phase4Batch_length_le s₁ uns (s₁.locations.getLast?.getD default)
              rw [hbatch] at hb
              dsimp only at hb
              omega
            | ok p =>
              obtain ⟨s₃, m⟩ := p
              rw [hrec] at h
              cases h

/-- C8: the phase-4 overflow loop performs at most `U` iterations, where
`U` is the number of activities unscheduled when the loop starts: every
iteration that is not the last removes at least one activity from the pool,
and a pass that places nothing aborts the loop.  In particular the loop
(and with it `createSchedule`) always terminates: the structural fuel
`U + 1` supplied by `phase4` is never exhausted. -/
theorem c8_overflow_loop_bounded (s : St) (uns : List EventS) :
    (∀ s' n, phase4 s uns = .ok (s', n) → n ≤ uns.length) ∧
      phase4 s uns ≠ .error "fuel" := by
  constructor
  · intro s' n h
    exact phase4Go_count_le (uns.length + 1) s uns s' n h
  · intro h
    have := phase4Go_fuel_error (uns.length + 1) s uns h
    omega

/-- The concrete overflow run used to witness `c8_overflow_loop_bounded`:
one activity left over, one synthetic room, one iteration. -/
def c8P4 : St × Nat :=
  ((phase4 (resetEvents exS0 [exEvA]) [exEvA]).toOption).getD (default, 0)

theorem c8_overflow_loop_bounded_witness :
    (phase4 (resetEvents exS0 [exEvA]) [exEvA] = .ok (c8P4.1, c8P4.2)) ∧ c8P4.2 ≤ 1 :=
  ⟨by rfl,
    (c8_overflow_loop_bounded (resetEvents exS0 [exEvA]) [exEvA]).1 c8P4.1 c8P4.2 (by rfl)⟩

/-! ## C1 — the no-overlap invariant: definitions -/

/-- Slot `k` belongs to one of the recorded ranges. -/
def slotMem (ranges : List (Int × Int)) (k : Int) : Prop :=
  ∃ r ∈ ranges, r.1 ≤ k ∧ k < r.2

instance (ranges : List (Int × Int)) (k : Int) : Decidable (slotMem ranges k) := by
  unfold slotMem
  infer_instance

/-- The grid of a resource holds the event `i` at slot `k` (the slot exists
and contains the reference). -/
def gridHolds (g : List Cell) (k : Int) (i : Nat) : Prop :=
  0 ≤ k ∧ k.toNat < g.length ∧ g.getD k.toNat none = some i

/-- The activity object is in the unassigned state. -/
def EvUnplaced (s : St) (e : EventS) : Prop :=
  (s.evs e.id).placedLocation = "" ∧ (s.evs e.id).indices = []

/-- The synthetic resource name `` `UN ${j}` ``. -/
def unName (j : Nat) : String := "UN " ++ natToStr j

/-- Well-formedness of a schedule state with respect to the event objects of
one run.  `W1`: a placed activity's recorded slots all hold its reference in
its resource's grid.  `W2`: every occupied grid slot belongs to the recorded
range-set of the placed activity it references.  `W3`: unplaced activities
record no ranges.  `W4`: a placed activity names an existing resource.
`W5`: grids of unknown resource names have no occupied slot.  `W6`: the
synthetic names still to be generated are not taken.  `W7`: no resource has
the empty name (the falsy sentinel of `placedLocation`). -/
structure WfSt (events : List EventS) (s : St) : Prop where
  w1 : ∀ e ∈ events, (s.evs e.id).placedLocation ≠ "" →
    ∀ k, slotMem (s.evs e.id).indices k →
      gridHolds (s.grid (s.evs e.id).placedLocation) k e.id
  w2 : ∀ (loc : String) (k : Nat) (i : Nat), (s.grid loc).getD k none = some i →
    ∃ e ∈ events, e.id = i ∧ (s.evs e.id).placedLocation = loc ∧
      (s.evs e.id).placedLocation ≠ "" ∧ slotMem (s.evs e.id).indices (k : Int)
  w3 : ∀ e ∈ events, (s.evs e.id).placedLocation = "" → (s.evs e.id).indices = []
  w4 : ∀ e ∈ events, (s.evs e.id).placedLocation ≠ "" →
    (s.evs e.id).placedLocation ∈ locNames s
  w5 : ∀ loc, loc ∉ locNames s → ∀ k : Nat, (s.grid loc).getD k none = none
  w6 : ∀ j : Nat, s.unscheduledCount ≤ j → unName j ∉ locNames s
  w7 : "" ∉ locNames s

/-- The no-overlap property the claim asserts: two distinct placed
activities assigned to the same resource occupy disjoint slot sets. -/
def NoOverlap (events : List EventS) (s : St) : Prop :=
  ∀ e1 ∈ events, ∀ e2 ∈ events, e1.id ≠ e2.id →
    (s.evs e1.id).placedLocation ≠ "" →
    (s.evs e2.id).placedLocation ≠ "" →
    (s.evs e1.id).placedLocation = (s.evs e2.id).placedLocation →
    ∀ k : Int, ¬(slotMem (s.evs e1.id).indices k ∧ slotMem (s.evs e2.id).indices k)

/-- In a well-formed state the grid functionally forces disjointness: a
shared slot would have to hold both references at once. -/
theorem WfSt.noOverlap {events : List EventS} {s : St} (h : WfSt events s) :
    NoOverlap events s := by
  intro e1 he1 e2 he2 hne hp1 hp2 hloc k ⟨hs1, hs2⟩
  have h1 := h.w1 e1 he1 hp1 k hs1
  have h2 := h.w1 e2 he2 hp2 k hs2
  rw [hloc] at h1
  have : some e1.id = some e2.id := h1.2.2.symm.trans h2.2.2
  exact hne (Option.some.inj this)

/-! ## Characterizing the grid writes of a successful placement -/

theorem mem_rangeSlots (r : Int × Int) (k : Int) :
    k ∈ rangeSlots r ↔ r.1 ≤ k ∧ k < r.2 := by
  unfold rangeSlots
  constructor
  · intro hk
    obtain ⟨n, hn, hkn⟩ := List.mem_map.mp hk
    rw [List.mem_range] at hn
    simp only [Int.ofNat_eq_natCast] at hkn
    omega
  · intro ⟨h1, h2⟩
    refine List.mem_map.mpr ⟨(k - r.1).toNat, List.mem_range.mpr (by omega), ?_⟩
    simp only [Int.ofNat_eq_natCast]
    omega

theorem setCellJs_inbounds (g : List Cell) (k : Int) (v : Cell)
    (h0 : 0 ≤ k) (hk : k.toNat < g.length) :
    (setCellJs g k v).length = g.length ∧
      ∀ j : Nat, (setCellJs g k v).getD j none =
        if j = k.toNat then v else g.getD j none := by
  unfold setCellJs
  rw [if_neg (by omega), if_pos hk]
  refine ⟨List.length_set .., fun j => ?_⟩
  by_cases hj : j = k.toNat
  · subst hj
    rw [if_pos rfl]
    rw [List.getD_eq_getElem?_getD, List.getElem?_set_self (by omega)]
    rfl
  · rw [if_neg hj]
    rw [List.getD_eq_getElem?_getD, List.getD_eq_getElem?_getD,
      List.getElem?_set_ne (by omega)]

theorem foldl_setCellJs (v : Cell) :
    ∀ (S : List Int) (g : List Cell),
      (∀ k ∈ S, 0 ≤ k ∧ k.toNat < g.length) →
      ((S.foldl (fun g k => setCellJs g k v) g).length = g.length ∧
        ∀ j : Nat, (S.foldl (fun g k => setCellJs g k v) g).getD j none =
          if (j : Int) ∈ S then v else g.getD j none) := by
  intro S
  induction S with
  | nil =>
    intro g _
    exact ⟨rfl, fun j => by simp⟩
  | cons k0 S' ih =>
    intro g hin
    have hk0 := hin k0 (List.mem_cons_self ..)
    have hset := setCellJs_inbounds g k0 v hk0.1 hk0.2
    rw [List.foldl_cons]
    have hin' : ∀ k ∈ S', 0 ≤ k ∧ k.toNat < (setCellJs g k0 v).length := by
      intro k hk
      rw [hset.1]
      exact hin k (List.mem_cons_of_mem _ hk)
    obtain ⟨hlen', hcell'⟩ := ih (setCellJs g k0 v) hin'
    refine ⟨hlen'.trans hset.1, fun j => ?_⟩
    rw [hcell' j, hset.2 j]
    by_cases hS : (j : Int) ∈ S'
    · rw [if_pos hS, if_pos (List.mem_cons_of_mem _ hS)]
    · rw [if_neg hS]
      by_cases hj : j = k0.toNat
      · have : (j : Int) = k0 := by omega
        rw [if_pos hj, if_pos (this ▸ List.mem_cons_self ..)]
      · have : (j : Int) ≠ k0 := by omega
        rw [if_neg hj, if_neg (by simp [this, hS])]

theorem writeRanges_cells (i : Nat) :
    ∀ (ranges : List (Int × Int)) (g : List Cell),
      (∀ r ∈ ranges, ∀ k : Int, r.1 ≤ k → k < r.2 → 0 ≤ k ∧ k.toNat < g.length) →
      ((ranges.foldl
          (fun g r => (rangeSlots r).foldl (fun g k => setCellJs g k (some i)) g) g).length =
          g.length ∧
        ∀ j : Nat,
          (ranges.foldl
            (fun g r => (rangeSlots r).foldl (fun g k => setCellJs g k (some i)) g) g).getD
              j none =
            if slotMem ranges (j : Int) then some i else g.getD j none) := by
  intro ranges
  induction ranges with
  | nil =>
    intro g _
    refine ⟨rfl, fun j => ?_⟩
    rw [if_neg (by rintro ⟨r, hr, -⟩; cases hr)]
    rfl
  | cons r0 rest ih =>
    intro g hin
    rw [List.foldl_cons]
    have hin0 : ∀ k ∈ rangeSlots r0, 0 ≤ k ∧ k.toNat < g.length := by
      intro k hk
      rw [mem_rangeSlots] at hk
      exact hin r0 (List.mem_cons_self ..) k hk.1 hk.2
    obtain ⟨hlen0, hcell0⟩ := foldl_setCellJs (some i) (rangeSlots r0) g hin0
    set g1 := (rangeSlots r0).foldl (fun g k => setCellJs g k (some i)) g with hg1
    have hin' : ∀ r ∈ rest, ∀ k : Int, r.1 ≤ k → k < r.2 → 0 ≤ k ∧ k.toNat < g1.length := by
      intro r hr k h1 h2
      rw [hlen0]
      exact hin r (List.mem_cons_of_mem _ hr) k h1 h2
    obtain ⟨hlen', hcell'⟩ := ih g1 hin'
    refine ⟨hlen'.trans hlen0, fun j => ?_⟩
    rw [hcell' j]
    by_cases hrest : slotMem rest (j : Int)
    · obtain ⟨r, hr, hc⟩ := hrest
      rw [if_pos ⟨r, hr, hc⟩, if_pos ⟨r, List.mem_cons_of_mem _ hr, hc⟩]
    · rw [if_neg hrest, hcell0 j]
      by_cases h0 : (j : Int) ∈ rangeSlots r0
      · rw [if_pos h0,
          if_pos ⟨r0, List.mem_cons_self .., (mem_rangeSlots r0 (j : Int)).mp h0⟩]
      · rw [if_neg h0, if_neg ?_]
        rintro ⟨r, hr, hcond⟩
        rcases List.mem_cons.mp hr with rfl | hr'
        · exact h0 ((mem_rangeSlots r (j : Int)).mpr hcond)
        · exact hrest ⟨r, hr', hcond⟩

/-! ## A failed attempt on an unassigned activity is a no-op -/

theorem EvDyn.clear_self (d : EvDyn) (h : d.indices = []) :
    ({ d with indices := ([] : List (Int × Int)) } : EvDyn) = d := by
  cases d
  simp_all

theorem St.eq_of_grid_evs (a b : St)
    (hfields : a.locations = b.locations ∧ a.interval = b.interval ∧
      a.timeGap = b.timeGap ∧ a.schStartMin = b.schStartMin ∧
      a.schEndMin = b.schEndMin ∧ a.shortDays = b.shortDays ∧
      a.dayIntervals = b.dayIntervals ∧ a.weekIntervals = b.weekIntervals ∧
      a.dayOffsets = b.dayOffsets ∧ a.locationPreferences = b.locationPreferences ∧
      a.metrics = b.metrics ∧ a.unscheduledCount = b.unscheduledCount)
    (hg : a.grid = b.grid) (he : a.evs = b.evs) : a = b := by
  obtain ⟨l, i, t, s1, s2, sd, di, wi, dof, lp, m, u⟩ := hfields
  cases a
  cases b
  simp_all

theorem updateIndices_eq_self (s : St) (eid : Nat) (r : List (Int × Int))
    (hr : r = []) (hidx : (s.evs eid).indices = []) :
    updateIndices s eid r = s := by
  unfold updateIndices
  rw [if_neg (by simp [hidx])]
  refine St.eq_of_grid_evs _ _ ⟨rfl, rfl, rfl, rfl, rfl, rfl, rfl, rfl, rfl, rfl, rfl, rfl⟩
    rfl ?_
  funext i
  dsimp only
  by_cases hi : i = eid
  · subst hi
    rw [if_pos rfl, hr]
    exact EvDyn.clear_self _ hidx
  · rw [if_neg hi]

theorem clearIndices_updateIndices_eq_self (s : St) (eid : Nat) (r : List (Int × Int))
    (hidx : (s.evs eid).indices = []) :
    clearIndices (updateIndices s eid r) eid = s := by
  unfold clearIndices updateIndices
  rw [if_neg (by simp [hidx])]
  refine St.eq_of_grid_evs _ _ ⟨rfl, rfl, rfl, rfl, rfl, rfl, rfl, rfl, rfl, rfl, rfl, rfl⟩
    rfl ?_
  funext i
  dsimp only
  by_cases hi : i = eid
  · subst hi
    rw [if_pos rfl, if_pos rfl]
    exact EvDyn.clear_self _ hidx
  · rw [if_neg hi, if_neg hi]

/-- On an unassigned activity, every failing `placeEvent` call leaves the
whole state untouched. -/
theorem placeEvent_fail_unplaced_eq (s : St) (e : EventS) (loc : LocationR)
    (force : Bool) (s' : St) (hun : EvUnplaced s e)
    (hrun : placeEvent s e loc force = (false, s')) : s' = s := by
  unfold placeEvent at hrun
  by_cases hb : e.timeObj.startMin < s.schStartMin ∨ e.timeObj.endMin > s.schEndMin
  · rw [if_pos hb] at hrun
    cases hrun
    rfl
  · rw [if_neg hb] at hrun
    dsimp only at hrun
    by_cases hemp : (getIndicesForEvent s e.timeObj).isEmpty
    · rw [if_pos hemp] at hrun
      cases hrun
      exact updateIndices_eq_self s e.id _ (List.isEmpty_iff.mp hemp) hun.2
    · rw [if_neg hemp] at hrun
      by_cases hcap : (!force && decide (e.seats > loc.capacity)) = true
      · rw [if_pos hcap] at hrun
        cases hrun
        exact clearIndices_updateIndices_eq_self s e.id _ hun.2
      · rw [if_neg hcap] at hrun
        split at hrun
        · cases hrun
          exact clearIndices_updateIndices_eq_self s e.id _ hun.2
        · cases hrun

/-! ## Characterizing a successful placement -/

theorem updateIndices_fields (s : St) (eid : Nat) (r : List (Int × Int)) :
    (updateIndices s eid r).locations = s.locations ∧
      (updateIndices s eid r).interval = s.interval ∧
      (updateIndices s eid r).timeGap = s.timeGap ∧
      (updateIndices s eid r).schStartMin = s.schStartMin ∧
      (updateIndices s eid r).schEndMin = s.schEndMin ∧
      (updateIndices s eid r).shortDays = s.shortDays ∧
      (updateIndices s eid r).dayIntervals = s.dayIntervals ∧
      (updateIndices s eid r).weekIntervals = s.weekIntervals ∧
      (updateIndices s eid r).dayOffsets = s.dayOffsets ∧
      (updateIndices s eid r).locationPreferences = s.locationPreferences ∧
      (updateIndices s eid r).metrics = s.metrics ∧
      (updateIndices s eid r).unscheduledCount = s.unscheduledCount := by
  unfold updateIndices
  split <;> exact ⟨rfl, rfl, rfl, rfl, rfl, rfl, rfl, rfl, rfl, rfl, rfl, rfl⟩

theorem cellNonZero_false (g : List Cell) (k : Int) :
    cellNonZero g k = false ↔
      0 ≤ k ∧ k.toNat < g.length ∧ g.getD k.toNat none = none := by
  unfold cellNonZero
  simp only [Bool.not_eq_false', Bool.and_eq_true, decide_eq_true_eq,
    Option.isNone_iff_eq_none]
  constructor
  · rintro ⟨⟨h0, hlt⟩, hc⟩
    exact ⟨h0, by omega, hc⟩
  · rintro ⟨h0, hlt, hc⟩
    exact ⟨⟨h0, by omega⟩, hc⟩

/-- What a successful (non-`force`) `placeEvent` call did: the computed
ranges were non-empty and passed all per-range checks against the old grid,
the activity now records exactly those ranges and the resource name, and
the resource grid gained the activity's reference over the range slots. -/
theorem placeEvent_success_spec (s : St) (e : EventS) (loc : LocationR) (s' : St)
    (hun : EvUnplaced s e)
    (hrun : placeEvent s e loc false = (true, s')) :
    getIndicesForEvent s e.timeObj ≠ [] ∧
      (∀ r ∈ getIndicesForEvent s e.timeObj,
        rangeRejected s (s.grid loc.name) r = false) ∧
      s' = { s with
        grid := fun n =>
          if n = loc.name then
            (getIndicesForEvent s e.timeObj).foldl
              (fun g r => (rangeSlots r).foldl (fun g k => setCellJs g k (some e.id)) g)
              (s.grid loc.name)
          else s.grid n
        evs := fun i =>
          if i = e.id then
            { s.evs i with
              indices := getIndicesForEvent s e.timeObj
              placedLocation := loc.name }
          else s.evs i } := by
  unfold placeEvent at hrun
  by_cases hb : e.timeObj.startMin < s.schStartMin ∨ e.timeObj.endMin > s.schEndMin
  · rw [if_pos hb] at hrun
    cases hrun
  · rw [if_neg hb] at hrun
    dsimp only at hrun
    by_cases hemp : (getIndicesForEvent s e.timeObj).isEmpty
    · rw [if_pos hemp] at hrun
      cases hrun
    · rw [if_neg hemp] at hrun
      by_cases hcap : (!false && decide (e.seats > loc.capacity)) = true
      · rw [if_pos hcap] at hrun
        cases hrun
      · rw [if_neg hcap] at hrun
        set ranges := getIndicesForEvent s e.timeObj with hranges
        by_cases hrej : (!false && ranges.any fun r =>
            rangeRejected (updateIndices s e.id ranges)
              ((updateIndices s e.id ranges).grid loc.name) r) = true
        · rw [if_pos hrej] at hrun
          cases hrun
        · rw [if_neg hrej] at hrun
          cases hrun
          simp only [Bool.not_false, Bool.true_and, Bool.not_eq_true] at hrej
          rw [updateIndices_grid] at hrej
          refine ⟨fun hc => hemp (by simp [hc]), ?_, ?_⟩
          · intro r hr
            have h := List.any_eq_false.mp hrej r hr
            rw [rangeRejected_congr s (updateIndices s e.id ranges)
              (s.grid loc.name) r (updateIndices_config s e.id _).2.2.1
              (updateIndices_config s e.id _).2.1] at h
            exact Bool.eq_false_iff.mpr h
          · unfold commitPlacement
            obtain ⟨f1, f2, f3, f4, f5, f6, f7, f8, f9, f10, f11, f12⟩ :=
              updateIndices_fields s e.id ranges
            refine St.eq_of_grid_evs _ _
              ⟨f1, f2, f3, f4, f5, f6, f7, f8, f9, f10, f11, f12⟩ ?_ ?_
            · funext n
              dsimp only
              rw [updateIndices_grid]
            · funext i
              dsimp only
              by_cases hi : i = e.id
              · subst hi
                rw [if_pos rfl, if_pos rfl]
                rw [updateIndices_of_empty s e.id _ hun.2]
              · rw [if_neg hi, if_neg hi]
                exact updateIndices_evs_other s e.id _ i hi

/-! ## A successful placement preserves well-formedness -/

theorem placeEvent_success_wf (events : List EventS) (s : St) (e : EventS)
    (loc : LocationR) (s' : St) (hw : WfSt events s)
    (hnd : (events.map (·.id)).Nodup) (he : e ∈ events) (hun : EvUnplaced s e)
    (hloc : loc.name ∈ locNames s)
    (hrun : placeEvent s e loc false = (true, s')) : WfSt events s' := by
  obtain ⟨hne, hchecks, hst⟩ := placeEvent_success_spec s e loc s' hun hrun
  set ranges := getIndicesForEvent s e.timeObj with hranges
  set g := s.grid loc.name with hgdef
  have hslots : ∀ r ∈ ranges, ∀ k : Int, r.1 ≤ k → k < r.2 →
      0 ≤ k ∧ k.toNat < g.length ∧ g.getD k.toNat none = none := by
    intro r hr k h1 h2
    have hrr := hchecks r hr
    unfold rangeRejected at hrr
    rw [Bool.or_eq_false_iff] at hrr
    have hmem : k ∈ rangeSlots r := (mem_rangeSlots r k).mpr ⟨h1, h2⟩
    have hfalse := List.any_eq_false.mp hrr.2 k hmem
    exact (cellNonZero_false g k).mp (Bool.eq_false_iff.mpr hfalse)
  have hin : ∀ r ∈ ranges, ∀ k : Int, r.1 ≤ k → k < r.2 →
      0 ≤ k ∧ k.toNat < g.length :=
    fun r hr k h1 h2 => ⟨(hslots r hr k h1 h2).1, (hslots r hr k h1 h2).2.1⟩
  obtain ⟨hglen, hgcell⟩ := writeRanges_cells e.id ranges g hin
  set gw := ranges.foldl
    (fun g r => (rangeSlots r).foldl (fun g k => setCellJs g k (some e.id)) g) g with hgw
  have hids := List.inj_on_of_nodup_map hnd
  have hlocname_ne : loc.name ≠ "" := fun hc => hw.w7 (hc ▸ hloc)
  have hsgrid : ∀ n, s'.grid n = if n = loc.name then gw else s.grid n := by
    intro n
    rw [hst]
  have hsevs : ∀ i, s'.evs i =
      if i = e.id then
        { s.evs i with indices := ranges, placedLocation := loc.name }
      else s.evs i := by
    intro i
    rw [hst]
  have hsl : locNames s' = locNames s := by
    unfold locNames
    rw [hst]
  have hsc : s'.unscheduledCount = s.unscheduledCount := by rw [hst]
  refine ⟨?_, ?_, ?_, ?_, ?_, ?_, ?_⟩
  · -- W1
    intro e' he' hp' k hk
    by_cases hid : e'.id = e.id
    · rw [hid, hsevs e.id, if_pos rfl] at hp' hk ⊢
      dsimp only at hk ⊢
      obtain ⟨r, hr, hc1, hc2⟩ := hk
      rw [hsgrid, if_pos rfl]
      obtain ⟨h0, hlt, -⟩ := hslots r hr k hc1 hc2
      have hlt' : k.toNat < gw.length := by
        rw [hglen]
        exact hlt
      have hsm' : slotMem ranges ((k.toNat : Nat) : Int) := by
        rw [show ((k.toNat : Nat) : Int) = k by omega]
        exact ⟨r, hr, hc1, hc2⟩
      refine ⟨h0, hlt', ?_⟩
      rw [hgcell k.toNat, if_pos hsm']
    · have hd : s'.evs e'.id = s.evs e'.id := by rw [hsevs, if_neg hid]
      rw [hd] at hp' hk ⊢
      have hold := hw.w1 e' he' hp' k hk
      by_cases hlc : (s.evs e'.id).placedLocation = loc.name
      · rw [hsgrid, if_pos hlc]
        rw [hlc] at hold
        obtain ⟨h0, hlt, hcell⟩ := hold
        refine ⟨h0, by rw [hglen]; exact hlt, ?_⟩
        rw [hgcell k.toNat]
        rw [if_neg ?_]
        · exact hcell
        · intro hsm
          obtain ⟨r, hr, hc1, hc2⟩ := hsm
          have := (hslots r hr (k.toNat : Int) hc1 hc2).2.2
          rw [show ((k.toNat : Nat) : Int).toNat = k.toNat by omega] at this
          rw [this] at hcell
          cases hcell
      · rw [hsgrid, if_neg hlc]
        exact hold
  · -- W2
    intro loc' kn i hcell
    rw [hsgrid] at hcell
    by_cases hlc : loc' = loc.name
    · rw [if_pos hlc] at hcell
      rw [hgcell kn] at hcell
      by_cases hsm : slotMem ranges (kn : Int)
      · rw [if_pos hsm] at hcell
        have hi : i = e.id := (Option.some.inj hcell).symm
        refine ⟨e, he, hi.symm, ?_⟩
        rw [hsevs e.id, if_pos rfl]
        exact ⟨hlc.symm, hlocname_ne, hsm⟩
      · rw [if_neg hsm] at hcell
        obtain ⟨e'', he'', hid'', hpl'', hne'', hsm''⟩ := hw.w2 loc.name kn i hcell
        have hne : e''.id ≠ e.id := by
          intro hcontra
          have : e'' = e := hids he'' he hcontra
          rw [this] at hne''
          exact hne'' hun.1
        refine ⟨e'', he'', hid'', ?_⟩
        rw [hsevs e''.id, if_neg hne]
        exact ⟨hlc ▸ hpl'', hne'', hsm''⟩
    · rw [if_neg hlc] at hcell
      obtain ⟨e'', he'', hid'', hpl'', hne'', hsm''⟩ := hw.w2 loc' kn i hcell
      have hne : e''.id ≠ e.id := by
        intro hcontra
        have : e'' = e := hids he'' he hcontra
        rw [this] at hne''
        exact hne'' hun.1
      refine ⟨e'', he'', hid'', ?_⟩
      rw [hsevs e''.id, if_neg hne]
      exact ⟨hpl'', hne'', hsm''⟩
  · -- W3
    intro e' he' hp'
    by_cases hid : e'.id = e.id
    · rw [hid, hsevs e.id, if_pos rfl] at hp'
      exact absurd hp' hlocname_ne
    · rw [hsevs e'.id, if_neg hid] at hp' ⊢
      exact hw.w3 e' he' hp'
  · -- W4
    intro e' he' hp'
    rw [hsl]
    by_cases hid : e'.id = e.id
    · rw [hid, hsevs e.id, if_pos rfl] at hp' ⊢
      exact hloc
    · rw [hsevs e'.id, if_neg hid] at hp' ⊢
      exact hw.w4 e' he' hp'
  · -- W5
    intro loc' hnot kn
    rw [hsl] at hnot
    have hlc : loc' ≠ loc.name := fun hc => hnot (hc ▸ hloc)
    rw [hsgrid, if_neg hlc]
    exact hw.w5 loc' hnot kn
  · -- W6
    intro j hj
    rw [hsl]
    rw [hsc] at hj
    exact hw.w6 j hj
  · -- W7
    rw [hsl]
    exact hw.w7

/-! ## Preservation through the phase loops -/

/-- Any non-`force` placement attempt on an unassigned activity preserves
well-formedness: a failure is a no-op, a success installs the activity
consistently. -/
theorem placeEvent_wf (events : List EventS) (s : St) (e : EventS) (loc : LocationR)
    (hw : WfSt events s) (hnd : (events.map (·.id)).Nodup) (he : e ∈ events)
    (hun : EvUnplaced s e) (hloc : loc.name ∈ locNames s) :
    WfSt events (placeEvent s e loc false).2 := by
  cases hres : placeEvent s e loc false with
  | mk ok s' =>
    cases ok
    · rw [placeEvent_fail_unplaced_eq s e loc false s' hun hres]
      exact hw
    · exact placeEvent_success_wf events s e loc s' hw hnd he hun hloc hres

theorem tryLocs_wf (events : List EventS) (e : EventS)
    (hnd : (events.map (·.id)).Nodup) (he : e ∈ events) :
    ∀ (cands : List LocationR) (s : St), WfSt events s → EvUnplaced s e →
      (∀ l ∈ cands, l.name ∈ locNames s) →
      WfSt events (tryLocs s e cands).2 ∧
        ((tryLocs s e cands).1 = false → (tryLocs s e cands).2 = s) := by
  intro cands
  induction cands with
  | nil => exact fun s hw _ _ => ⟨hw, fun _ => rfl⟩
  | cons l rest ih =>
    intro s hw hun hcands
    cases hpe : placeEvent s e l false with
    | mk ok s' =>
      rw [tryLocs, hpe]
      dsimp only
      cases ok
      · rw [if_neg (by simp)]
        have hss : s' = s := placeEvent_fail_unplaced_eq s e l false s' hun hpe
        rw [hss]
        exact ih s hw hun (fun l' hl' => hcands l' (List.mem_cons_of_mem _ hl'))
      · rw [if_pos rfl]
        refine ⟨?_, fun h => nomatch h⟩
        have := placeEvent_success_wf events s e l s' hw hnd he hun
          (hcands l (List.mem_cons_self ..)) hpe
        exact this

/-- The pool of a phase: activities of this run, all still unassigned, with
no duplicate objects. -/
def PoolOk (events : List EventS) (s : St) (p : List EventS) : Prop :=
  (∀ x ∈ p, x ∈ events ∧ EvUnplaced s x) ∧ (p.map (·.id)).Nodup

/-- Two pools hold no common activity object. -/
def IdsDisj (p q : List EventS) : Prop := ∀ x ∈ p, ∀ y ∈ q, x.id ≠ y.id

theorem IdsDisj_append_right (p q : List EventS) (x : EventS)
    (h : IdsDisj p q) (hx : ∀ y ∈ p, y.id ≠ x.id) : IdsDisj p (q ++ [x]) := by
  intro a ha b hb
  rcases List.mem_append.mp hb with hb | hb
  · exact h a ha b hb
  · rw [List.mem_singleton.mp hb]
    exact hx a ha

theorem PoolOk_append (events : List EventS) (s : St) (p : List EventS) (x : EventS)
    (h : PoolOk events s p) (hx : x ∈ events) (hux : EvUnplaced s x)
    (hid : ∀ y ∈ p, y.id ≠ x.id) : PoolOk events s (p ++ [x]) := by
  constructor
  · intro y hy
    rcases List.mem_append.mp hy with hy | hy
    · exact h.1 y hy
    · rw [List.mem_singleton.mp hy]
      exact ⟨hx, hux⟩
  · rw [List.map_append, List.nodup_append]
    refine ⟨h.2, List.nodup_singleton _, ?_⟩
    intro a ha hax
    obtain ⟨y, hy, rfl⟩ := List.mem_map.mp ha
    simp only [List.map_cons, List.map_nil, List.mem_singleton] at hax
    exact hid y hy hax

/-- Pools only mention the `evs` entries of their members, so any state
change away from those entries keeps a pool valid. -/
theorem PoolOk_mono (events : List EventS) (s s' : St) (p : List EventS)
    (h : PoolOk events s p) (hkeep : ∀ x ∈ p, s'.evs x.id = s.evs x.id) :
    PoolOk events s' p := by
  refine ⟨fun x hx => ⟨(h.1 x hx).1, ?_⟩, h.2⟩
  have := (h.1 x hx).2
  unfold EvUnplaced at this ⊢
  rw [hkeep x hx]
  exact this

theorem PoolOk_tail (events : List EventS) (s : St) (e : EventS) (rest : List EventS)
    (h : PoolOk events s (e :: rest)) :
    PoolOk events s rest ∧ (e ∈ events ∧ EvUnplaced s e) ∧ ∀ x ∈ rest, x.id ≠ e.id := by
  obtain ⟨hmem, hnd⟩ := h
  rw [List.map_cons, List.nodup_cons] at hnd
  refine ⟨⟨fun x hx => hmem x (List.mem_cons_of_mem _ hx), hnd.2⟩,
    hmem e (List.mem_cons_self ..), ?_⟩
  intro x hx hc
  exact hnd.1 (hc ▸ List.mem_map_of_mem (·.id) hx)

theorem IdsDisj_cons_left (p : List EventS) (q : List EventS) (e : EventS)
    (h : IdsDisj (e :: p) q) :
    IdsDisj p q ∧ ∀ y ∈ q, e.id ≠ y.id :=
  ⟨fun x hx => h x (List.mem_cons_of_mem _ hx), h e (List.mem_cons_self ..)⟩

theorem findLoc_mem (s : St) (n : String) (loc : LocationR)
    (h : findLoc s n = some loc) : loc ∈ s.locations := by
  unfold findLoc at h
  exact List.mem_of_find?_eq_some h

theorem phase1_cons (s : St) (e : EventS) (rest : List EventS) (f : Nat)
    (w fin : List EventS) :
    phase1 s (e :: rest) f w fin =
      if e.bldgCode = "undefined" ∨ e.bldgCode = "nan" then
        phase1 s rest f w (fin ++ [e])
      else if e.roomNumber = "undefined" ∨ e.roomNumber = "nan" then
        phase1 s rest f (w ++ [e]) fin
      else
        match findLoc s (pastLocationString e) with
        | some loc =>
          if (placeEvent s e loc false).1 then
            phase1 (placeEvent s e loc false).2 rest f w fin
          else phase1 (placeEvent s e loc false).2 rest (f + 1) (w ++ [e]) fin
        | none => phase1 s rest (f + 1) (w ++ [e]) fin := by
  show (e :: rest).foldl _ _ = _
  rw [List.foldl_cons]
  dsimp only
  by_cases h1 : e.bldgCode = "undefined" ∨ e.bldgCode = "nan"
  · rw [if_pos h1, if_pos h1]
    rfl
  · rw [if_neg h1, if_neg h1]
    by_cases h2 : e.roomNumber = "undefined" ∨ e.roomNumber = "nan"
    · rw [if_pos h2, if_pos h2]
      rfl
    · rw [if_neg h2, if_neg h2]
      cases hfl : findLoc s (pastLocationString e) with
      | none => rfl
      | some loc =>
        dsimp only
        cases hpe : placeEvent s e loc false with
        | mk ok s' =>
          dsimp only
          cases ok
          · rw [if_neg (by simp), if_neg (by simp [hpe])]
            rfl
          · rw [if_pos rfl, if_pos (by simp [hpe])]
            rfl

theorem IdsDisj_append_left (p q : List EventS) (x : EventS)
    (h : IdsDisj p q) (hx : ∀ y ∈ q, x.id ≠ y.id) : IdsDisj (p ++ [x]) q := by
  intro a ha b hb
  rcases List.mem_append.mp ha with ha | ha
  · exact h a ha b hb
  · rw [List.mem_singleton.mp ha]
    exact hx b hb

/-- Phase 1 keeps the state well-formed and leaves two valid, disjoint
pools of still-unassigned activities. -/
theorem phase1_wf (events : List EventS) (hnd : (events.map (·.id)).Nodup) :
    ∀ (todo : List EventS) (s : St) (f : Nat) (w fin : List EventS),
      WfSt events s → PoolOk events s todo → PoolOk events s w → PoolOk events s fin →
      IdsDisj todo w → IdsDisj todo fin → IdsDisj w fin →
      WfSt events (phase1 s todo f w fin).1 ∧
        PoolOk events (phase1 s todo f w fin).1 (phase1 s todo f w fin).2.2.1 ∧
        PoolOk events (phase1 s todo f w fin).1 (phase1 s todo f w fin).2.2.2 ∧
        IdsDisj (phase1 s todo f w fin).2.2.1 (phase1 s todo f w fin).2.2.2 := by
  intro todo
  induction todo with
  | nil =>
    intro s f w fin hw _ hpw hpf _ _ hwf
    exact ⟨hw, hpw, hpf, hwf⟩
  | cons e rest ih =>
    intro s f w fin hw hpt hpw hpf hdw hdf hwf
    obtain ⟨hprest, ⟨heev, heun⟩, hrid⟩ := PoolOk_tail events s e rest hpt
    obtain ⟨hdw', hew⟩ := IdsDisj_cons_left rest w e hdw
    obtain ⟨hdf', hef⟩ := IdsDisj_cons_left rest fin e hdf
    rw [phase1_cons]
    by_cases h1 : e.bldgCode = "undefined" ∨ e.bldgCode = "nan"
    · rw [if_pos h1]
      refine ih s f w (fin ++ [e]) hw hprest hpw ?_ hdw' ?_ ?_
      · exact PoolOk_append events s fin e hpf heev heun (fun y hy => (hef y hy).symm)
      · exact IdsDisj_append_right rest fin e hdf' hrid
      · exact IdsDisj_append_right w fin e hwf (fun y hy => (hew y hy).symm)
    · rw [if_neg h1]
      by_cases h2 : e.roomNumber = "undefined" ∨ e.roomNumber = "nan"
      · rw [if_pos h2]
        refine ih s f (w ++ [e]) fin hw hprest ?_ hpf ?_ hdf' ?_
        · exact PoolOk_append events s w e hpw heev heun (fun y hy => (hew y hy).symm)
        · exact IdsDisj_append_right rest w e hdw' hrid
        · exact IdsDisj_append_left w fin e hwf hef
      · rw [if_neg h2]
        cases hfl : findLoc s (pastLocationString e) with
        | none =>
          refine ih s (f + 1) (w ++ [e]) fin hw hprest ?_ hpf ?_ hdf' ?_
          · exact PoolOk_append events s w e hpw heev heun (fun y hy => (hew y hy).symm)
          · exact IdsDisj_append_right rest w e hdw' hrid
          · exact IdsDisj_append_left w fin e hwf hef
        | some loc =>
          have hlocn : loc.name ∈ locNames s :=
            List.mem_map_of_mem (·.name) (findLoc_mem s _ loc hfl)
          dsimp only
          cases hok : (placeEvent s e loc false).1
          · rw [if_neg (by simp [hok])]
            have hrun : placeEvent s e loc false =
                (false, (placeEvent s e loc false).2) := Prod.ext hok rfl
            have hss : (placeEvent s e loc false).2 = s :=
              placeEvent_fail_unplaced_eq s e loc false _ heun hrun
            rw [hss]
            refine ih s (f + 1) (w ++ [e]) fin hw hprest ?_ hpf ?_ hdf' ?_
            · exact PoolOk_append events s w e hpw heev heun (fun y hy => (hew y hy).symm)
            · exact IdsDisj_append_right rest w e hdw' hrid
            · exact IdsDisj_append_left w fin e hwf hef
          · rw [if_pos (by simp [hok])]
            have hw₂ : WfSt events (placeEvent s e loc false).2 :=
              placeEvent_wf events s e loc hw hnd heev heun hlocn
            refine ih (placeEvent s e loc false).2 f w fin hw₂ ?_ ?_ ?_ hdw' hdf' hwf
            · exact PoolOk_mono events s _ rest hprest
                (fun x hx => placeEvent_evs_other s e loc false x.id (hrid x hx))
            · exact PoolOk_mono events s _ w hpw
                (fun x hx => placeEvent_evs_other s e loc false x.id (hew x hx).symm)
            · exact PoolOk_mono events s _ fin hpf
                (fun x hx => placeEvent_evs_other s e loc false x.id (hef x hx).symm)

theorem findLocsByBldg_sub (s : St) (b : String) (l : LocationR)
    (h : l ∈ findLocsByBldg s b) : l ∈ s.locations :=
  (List.mem_filter.mp h).1

/-- Phase 2 keeps the state well-formed and hands phase 3 a valid pool. -/
theorem phase2_wf (events : List EventS) (hnd : (events.map (·.id)).Nodup) :
    ∀ (waiting : List EventS) (s : St) (f : Nat) (fin : List EventS),
      WfSt events s → PoolOk events s waiting → PoolOk events s fin →
      IdsDisj waiting fin →
      WfSt events (phase2 s waiting f fin).1 ∧
        PoolOk events (phase2 s waiting f fin).1 (phase2 s waiting f fin).2.2 := by
  intro waiting
  induction waiting with
  | nil =>
    intro s f fin hw _ hpf _
    exact ⟨hw, hpf⟩
  | cons e rest ih =>
    intro s f fin hw hpt hpf hdf
    obtain ⟨hprest, ⟨heev, heun⟩, hrid⟩ := PoolOk_tail events s e rest hpt
    obtain ⟨hdf', hef⟩ := IdsDisj_cons_left rest fin e hdf
    rw [phase2_cons]
    by_cases hemp : (findLocsByBldg s e.bldgCode).isEmpty
    · rw [if_pos hemp]
      refine ih s f (fin ++ [e]) hw hprest ?_ ?_
      · exact PoolOk_append events s fin e hpf heev heun (fun y hy => (hef y hy).symm)
      · exact IdsDisj_append_right rest fin e hdf' hrid
    · rw [if_neg hemp]
      have hcands : ∀ l ∈ findLocsByBldg s e.bldgCode, l.name ∈ locNames s :=
        fun l hl => List.mem_map_of_mem (·.name) (findLocsByBldg_sub s _ l hl)
      obtain ⟨hw₂, hfail⟩ := tryLocs_wf events e hnd heev (findLocsByBldg s e.bldgCode)
        s hw heun hcands
      cases hok : (tryLocs s e (findLocsByBldg s e.bldgCode)).1
      · rw [if_neg (by simp [hok])]
        rw [hfail hok]
        refine ih s (f + 1) (fin ++ [e]) hw hprest ?_ ?_
        · exact PoolOk_append events s fin e hpf heev heun (fun y hy => (hef y hy).symm)
        · exact IdsDisj_append_right rest fin e hdf' hrid
      · rw [if_pos (by simp [hok])]
        refine ih (tryLocs s e (findLocsByBldg s e.bldgCode)).2 f fin hw₂ ?_ ?_ hdf'
        · exact PoolOk_mono events s _ rest hprest
            (fun x hx => tryLocs_evs_other e x.id (hrid x hx) _ s)
        · exact PoolOk_mono events s _ fin hpf
            (fun x hx => tryLocs_evs_other e x.id (hef x hx).symm _ s)

theorem potentialLocsFor_sub (s : St) (e : EventS) (l : LocationR)
    (h : l ∈ potentialLocsFor s e) : l ∈ s.locations := by
  unfold potentialLocsFor at h
  rcases List.mem_append.mp h with h | h
  · rcases hfind : s.locationPreferences.find? (fun p => p.1 = e.dept) with - | p
    · rw [hfind] at h
      cases h
    · rw [hfind] at h
      dsimp only at h
      have aux : ∀ (bs : List String) (acc : List LocationR),
          (∀ x ∈ acc, x ∈ s.locations) →
          ∀ x ∈ bs.foldl (fun acc b => acc ++ findLocsByBldg s b) acc, x ∈ s.locations := by
        intro bs
        induction bs with
        | nil => exact fun acc hacc x hx => hacc x hx
        | cons b bs' ih' =>
          intro acc hacc x hx
          rw [List.foldl_cons] at hx
          refine ih' (acc ++ findLocsByBldg s b) ?_ x hx
          intro y hy
          rcases List.mem_append.mp hy with hy | hy
          · exact hacc y hy
          · exact findLocsByBldg_sub s b y hy
      exact aux p.2 [] (fun x hx => absurd hx (List.not_mem_nil x)) l h
  · exact (List.mem_filter.mp h).1

/-- Phase 3 keeps the state well-formed and hands phase 4 a valid pool. -/
theorem phase3_wf (events : List EventS) (hnd : (events.map (·.id)).Nodup) :
    ∀ (final : List EventS) (s : St) (f : Nat) (uns : List EventS),
      WfSt events s → PoolOk events s final → PoolOk events s uns →
      IdsDisj final uns →
      WfSt events (phase3 s final f uns).1 ∧
        PoolOk events (phase3 s final f uns).1 (phase3 s final f uns).2.2 := by
  intro final
  induction final with
  | nil =>
    intro s f uns hw _ hpu _
    exact ⟨hw, hpu⟩
  | cons e rest ih =>
    intro s f uns hw hpt hpu hdu
    obtain ⟨hprest, ⟨heev, heun⟩, hrid⟩ := PoolOk_tail events s e rest hpt
    obtain ⟨hdu', heu⟩ := IdsDisj_cons_left rest uns e hdu
    have hcons : phase3 s (e :: rest) f uns =
        if (tryLocs s e (potentialLocsFor s e)).1 then
          phase3 (tryLocs s e (potentialLocsFor s e)).2 rest f uns
        else phase3 (tryLocs s e (potentialLocsFor s e)).2 rest (f + 1) (uns ++ [e]) := by
      show (e :: rest).foldl _ _ = _
      rw [List.foldl_cons]
      dsimp only
      cases htl : tryLocs s e (potentialLocsFor s e) with
      | mk ok s' =>
        dsimp only
        cases ok
        · rw [if_neg (by simp)]
          rfl
        · rw [if_pos rfl]
          rfl
    rw [hcons]
    have hcands : ∀ l ∈ potentialLocsFor s e, l.name ∈ locNames s :=
      fun l hl => List.mem_map_of_mem (·.name) (potentialLocsFor_sub s e l hl)
    obtain ⟨hw₂, hfail⟩ := tryLocs_wf events e hnd heev (potentialLocsFor s e) s hw heun hcands
    cases hok : (tryLocs s e (potentialLocsFor s e)).1
    · rw [if_neg (by simp [hok])]
      rw [hfail hok]
      refine ih s (f + 1) (uns ++ [e]) hw hprest ?_ ?_
      · exact PoolOk_append events s uns e hpu heev heun (fun y hy => (heu y hy).symm)
      · exact IdsDisj_append_right rest uns e hdu' hrid
    · rw [if_pos (by simp [hok])]
      refine ih (tryLocs s e (potentialLocsFor s e)).2 f uns hw₂ ?_ ?_ hdu'
      · exact PoolOk_mono events s _ rest hprest
          (fun x hx => tryLocs_evs_other e x.id (hrid x hx) _ s)
      · exact PoolOk_mono events s _ uns hpu
          (fun x hx => tryLocs_evs_other e x.id (heu x hx).symm _ s)

/-! ## Phase 4 preserves well-formedness -/

theorem unName_injective : Function.Injective unName := by
  intro a b h
  unfold unName at h
  have : (natToStr a).data = (natToStr b).data :=
    List.append_cancel_left ((String.data_append .. ▸ congrArg String.data h).trans
      (String.data_append ..))
  exact natToStr_injective (String.ext this)

theorem unName_ne_empty (j : Nat) : unName j ≠ "" := by
  intro h
  have := congrArg String.data h
  rw [unName, String.data_append] at this
  cases this

theorem getD_replicate_none (n k : Nat) :
    (List.replicate n (none : Cell)).getD k none = none := by
  rw [List.getD_eq_getElem?_getD, List.getElem?_replicate]
  split <;> rfl

/-- `addUnscheduledLocation` preserves well-formedness: the appended
synthetic resource has a fresh name and an all-empty grid row. -/
theorem addUnscheduledLocation_wf (events : List EventS) (s : St) (s₁ : St)
    (hw : WfSt events s) (hadd : addUnscheduledLocation s = .ok s₁) :
    WfSt events s₁ ∧
      s₁.locations = s.locations ++
        [LocationR.mk s.locations.length (unName s.unscheduledCount) 9999] ∧
      s₁.evs = s.evs := by
  unfold addUnscheduledLocation at hadd
  split at hadd
  case isFalse => cases hadd
  case isTrue hlen =>
    cases hadd
    set name := unName s.unscheduledCount with hname
    have hfresh : name ∉ locNames s := hw.w6 s.unscheduledCount (le_refl _)
    refine ⟨⟨?_, ?_, ?_, ?_, ?_, ?_, ?_⟩, rfl, rfl⟩
    · -- W1
      intro e he hp k hk
      have hpl := hw.w4 e he hp
      have hne : (s.evs e.id).placedLocation ≠ name := fun hc => hfresh (hc ▸ hpl)
      dsimp only
      split
      · exact absurd (by assumption) hne
      · exact hw.w1 e he hp k hk
    · -- W2
      intro loc k i hcell
      dsimp only at hcell
      split at hcell
      · rw [getD_replicate_none] at hcell
        cases hcell
      · exact hw.w2 loc k i hcell
    · -- W3
      exact hw.w3
    · -- W4
      intro e he hp
      show (s.evs e.id).placedLocation ∈
        (s.locations ++ [LocationR.mk s.locations.length name 9999]).map (·.name)
      rw [List.map_append]
      exact List.mem_append_left _ (hw.w4 e he hp)
    · -- W5
      intro loc hnot k
      have hnot' : loc ∉
          (s.locations ++ [LocationR.mk s.locations.length name 9999]).map (·.name) := hnot
      rw [List.map_append, List.mem_append] at hnot'
      push_neg at hnot'
      have hlc : loc ≠ name := by
        intro hc
        exact hnot'.2 (by rw [hc]; exact List.mem_singleton_self name)
      dsimp only
      split
      · exact absurd (by assumption) hlc
      · exact hw.w5 loc hnot'.1 k
    · -- W6
      intro j hj
      have hj' : s.unscheduledCount + 1 ≤ j := hj
      show unName j ∉
        (s.locations ++ [LocationR.mk s.locations.length name 9999]).map (·.name)
      rw [List.map_append, List.mem_append]
      push_neg
      constructor
      · exact hw.w6 j (by omega)
      · rw [show (([LocationR.mk s.locations.length name 9999]).map (·.name)) = [name] from rfl,
          List.mem_singleton]
        intro hc
        have : j = s.unscheduledCount := unName_injective hc
        omega
    · -- W7
      show ¬("" ∈ (s.locations ++ [LocationR.mk s.locations.length name 9999]).map (·.name))
      rw [List.map_append, List.mem_append]
      push_neg
      refine ⟨hw.w7, ?_⟩
      rw [show (([LocationR.mk s.locations.length name 9999]).map (·.name)) = [name] from rfl,
        List.mem_singleton]
      exact (unName_ne_empty _).symm

theorem phase4Batch_wf (events : List EventS) (hnd : (events.map (·.id)).Nodup)
    (newLoc : LocationR) :
    ∀ (batch : List EventS) (s : St) (u : List EventS),
      WfSt events s → (∀ x ∈ batch, x ∈ events ∧ EvUnplaced s x) →
      ((batch.map (·.id)).Nodup) →
      (∀ x ∈ u, x ∈ events ∧ EvUnplaced s x) → ((u.map (·.id)).Nodup) →
      newLoc.name ∈ locNames s →
      WfSt events (batch.foldl
        (fun acc e =>
          let (s, u) := acc
          let (ok, s') := placeEvent s e newLoc false
          if ok then (s', u.filter (fun x => x ≠ e)) else (s', u)) (s, u)).1 ∧
        (∀ x ∈ (batch.foldl
          (fun acc e =>
            let (s, u) := acc
            let (ok, s') := placeEvent s e newLoc false
            if ok then (s', u.filter (fun x => x ≠ e)) else (s', u)) (s, u)).2,
          x ∈ events ∧ EvUnplaced (batch.foldl
            (fun acc e =>
              let (s, u) := acc
              let (ok, s') := placeEvent s e newLoc false
              if ok then (s', u.filter (fun x => x ≠ e)) else (s', u)) (s, u)).1 x) ∧
        (((batch.foldl
          (fun acc e =>
            let (s, u) := acc
            let (ok, s') := placeEvent s e newLoc false
            if ok then (s', u.filter (fun x => x ≠ e)) else (s', u)) (s, u)).2.map
              (·.id)).Nodup) := by
  have hids := List.inj_on_of_nodup_map hnd
  intro batch
  induction batch with
  | nil =>
    intro s u hw _ _ hu hund _
    exact ⟨hw, hu, hund⟩
  | cons e rest ih =>
    intro s u hw hbatch hbnd hu hund hnewloc
    rw [List.foldl_cons]
    have heev := (hbatch e (List.mem_cons_self ..)).1
    have heun := (hbatch e (List.mem_cons_self ..)).2
    rw [List.map_cons, List.nodup_cons] at hbnd
    have hrid : ∀ x ∈ rest, x.id ≠ e.id := by
      intro x hx hc
      exact hbnd.1 (hc ▸ List.mem_map_of_mem (·.id) hx)
    dsimp only
    cases hpe : placeEvent s e newLoc false with
    | mk ok s' =>
      dsimp only
      cases ok
      · rw [if_neg (by simp)]
        have hss : s' = s := placeEvent_fail_unplaced_eq s e newLoc false s' heun hpe
        rw [hss]
        exact ih s u hw (fun x hx => hbatch x (List.mem_cons_of_mem _ hx))
          hbnd.2 hu hund hnewloc
      · rw [if_pos rfl]
        have hw' : WfSt events s' := by
          have := placeEvent_wf events s e newLoc hw hnd heev heun hnewloc
          rw [hpe] at this
          exact this
        have hkeep : ∀ (x : EventS), x.id ≠ e.id → s'.evs x.id = s.evs x.id := by
          intro x hx
          have := placeEvent_evs_other s e newLoc false x.id hx
          rw [hpe] at this
          exact this
        have hln : newLoc.name ∈ locNames s' := by
          have hl := placeEvent_locations s e newLoc false
          rw [hpe] at hl
          unfold locNames
          rw [hl]
          exact hnewloc
        refine ih s' (u.filter (fun x => x ≠ e)) hw' ?_ hbnd.2 ?_ ?_ hln
        · intro x hx
          obtain ⟨hxe, hxu⟩ := hbatch x (List.mem_cons_of_mem _ hx)
          refine ⟨hxe, ?_⟩
          unfold EvUnplaced
          rw [hkeep x (hrid x hx)]
          exact hxu
        · intro x hx
          rw [List.mem_filter] at hx
          obtain ⟨hxu, hxne⟩ := hx
          obtain ⟨hxe, hxun⟩ := hu x hxu
          have hxne' : x ≠ e := by simpa using hxne
          have hxid : x.id ≠ e.id := fun hc => hxne' (hids hxe heev hc)
          refine ⟨hxe, ?_⟩
          unfold EvUnplaced
          rw [hkeep x hxid]
          exact hxun
        · exact List.Nodup.sublist (List.Sublist.map _ (List.filter_sublist _)) hund

theorem phase4Go_wf (events : List EventS) (hnd : (events.map (·.id)).Nodup) :
    ∀ (fuel : Nat) (s : St) (uns : List EventS) (s' : St) (n : Nat),
      WfSt events s → PoolOk events s uns →
      phase4Go fuel s uns = .ok (s', n) → WfSt events s' := by
  intro fuel
  induction fuel with
  | zero => intro s uns s' n _ _ h; cases h
  | succ fuel ih =>
    intro s uns s' n hw hpu h
    rw [phase4Go] at h
    by_cases hemp : uns.isEmpty
    · rw [if_pos hemp] at h
      cases h
      exact hw
    · rw [if_neg hemp] at h
      cases hadd : addUnscheduledLocation s with
      | error msg =>
        rw [hadd] at h
        cases h
      | ok s₁ =>
        rw [hadd] at h
        dsimp only at h
        obtain ⟨hw₁, hlocs₁, hevs₁⟩ := addUnscheduledLocation_wf events s s₁ hw hadd
        have hnew : s₁.locations.getLast?.getD default =
            LocationR.mk s.locations.length (unName s.unscheduledCount) 9999 := by
          rw [hlocs₁, List.getLast?_concat]
          rfl
        have hnewmem : (s₁.locations.getLast?.getD default).name ∈ locNames s₁ := by
          rw [hnew]
          unfold locNames
          rw [hlocs₁, List.map_append]
          exact List.mem_append_right _ (List.mem_singleton_self _)
        have hpu₁ : PoolOk events s₁ uns :=
          PoolOk_mono events s s₁ uns hpu (fun x _ => congrFun hevs₁ x.id)
        cases hbatch : phase4Batch s₁ uns (s₁.locations.getLast?.getD default) with
        | mk s₂ uns' =>
          rw [hbatch] at h
          dsimp only at h
          have hbwf := phase4Batch_wf events hnd (s₁.locations.getLast?.getD default)
            uns s₁ uns hw₁ hpu₁.1 hpu₁.2 hpu₁.1 hpu₁.2 hnewmem
          rw [show (uns.foldl
              (fun acc e =>
                let (s, u) := acc
                let (ok, s') := placeEvent s e (s₁.locations.getLast?.getD default) false
                if ok then (s', u.filter (fun x => x ≠ e)) else (s', u)) (s₁, uns)) =
              phase4Batch s₁ uns (s₁.locations.getLast?.getD default) from rfl,
            hbatch] at hbwf
          by_cases hlen : uns'.length = uns.length
          · rw [if_pos hlen] at h
            cases h
            exact hbwf.1
          · rw [if_neg hlen] at h
            cases hrec : phase4Go fuel s₂ uns' with
            | error msg =>
              rw [hrec] at h
              cases h
            | ok p =>
              obtain ⟨s₃, m⟩ := p
              rw [hrec] at h
              have hs3 : s₃ = s' := by
                simp only [Except.ok.injEq, Prod.mk.injEq] at h
                exact h.1
              rw [← hs3]
              exact ih s₂ uns' s₃ m hbwf.1 ⟨hbwf.2.1, hbwf.2.2⟩ hrec

/-! ## The shuffle permutes its input -/

theorem cons_get_set_perm {α : Type} :
    ∀ (xs : List α) (j : Nat) (x : α) (h : j < xs.length),
      List.Perm (xs.get ⟨j, h⟩ :: xs.set j x) (x :: xs) := by
  intro xs
  induction xs with
  | nil => intro j x h; cases h
  | cons a t ih =>
    intro j x h
    cases j with
    | zero => exact List.Perm.swap ..
    | succ j =>
      have hj : j < t.length := by
        simpa using h
      show List.Perm (t.get ⟨j, hj⟩ :: a :: t.set j x) (x :: a :: t)
      exact (List.Perm.swap a (t.get ⟨j, hj⟩) (t.set j x)).trans
        (((ih j x hj).cons a).trans (List.Perm.swap x a t))

theorem swapIdx_perm {α : Type} (l : List α) (i j : Nat) :
    List.Perm (swapIdx l i j) l := by
  unfold swapIdx
  cases hi : l.get? i with
  | none => exact List.Perm.refl l
  | some a =>
    cases hj : l.get? j with
    | none => exact List.Perm.refl l
    | some b =>
      dsimp only
      obtain ⟨hi', ha⟩ := List.get?_eq_some.mp hi
      obtain ⟨hj', hb⟩ := List.get?_eq_some.mp hj
      by_cases hij : i = j
      · subst hij
        rw [List.set_set]
        have h1 := cons_get_set_perm l i a hi'
        rw [ha] at h1
        exact h1.cons_inv
      · have hsetlen : j < (l.set i b).length := by
          simpa using hj'
        have hb' : (l.set i b).get ⟨j, hsetlen⟩ = b := by
          have hgg : (l.set i b).get ⟨j, hsetlen⟩ = l.get ⟨j, hj'⟩ := by
            rw [List.get_eq_getElem, List.get_eq_getElem]
            exact List.getElem_set_ne hij _
          rw [hgg, hb]
        have h1 := cons_get_set_perm (l.set i b) j a hsetlen
        rw [hb'] at h1
        have h2 := cons_get_set_perm l i b hi'
        rw [ha] at h2
        exact (h1.trans h2).cons_inv

theorem shuffleGo_perm {α : Type} :
    ∀ (i : Nat) (state : Nat) (arr : List α) (state' : Nat) (arr' : List α),
      shuffleGo state arr i = .ok (state', arr') → List.Perm arr' arr := by
  intro i
  induction i with
  | zero =>
    intro state arr state' arr' h
    cases h
    exact List.Perm.refl _
  | succ i ih =>
    intro state arr state' arr' h
    rw [shuffleGo] at h
    split at h
    · exact (ih _ _ _ _ h).trans (swapIdx_perm ..)
    · cases h

theorem shuffleJs_perm {α : Type} (state : Nat) (arr : List α) (state' : Nat)
    (arr' : List α) (h : shuffleJs state arr = .ok (state', arr')) :
    List.Perm arr' arr := by
  unfold shuffleJs at h
  split at h
  · cases h
    exact List.Perm.refl _
  · exact shuffleGo_perm _ _ _ _ _ h

/-! ## C1 — the metric pass only touches `metric` fields -/

theorem foldl_rel {α β : Type} (f : α → β → α) (P : α → α → Prop)
    (hrefl : ∀ a, P a a)
    (htr : ∀ a b c, P a b → P b c → P a c)
    (hstep : ∀ a x, P a (f a x)) :
    ∀ (l : List β) (a : α), P a (l.foldl f a) := by
  intro l
  induction l with
  | nil => exact hrefl
  | cons x t ih =>
    intro a
    rw [List.foldl_cons]
    exact htr _ _ _ (hstep a x) (ih (f a x))

theorem calculateMetrics_fields (s : St) (mlist : List EventS) :
    (calculateMetrics s mlist).grid = s.grid ∧
    (calculateMetrics s mlist).locations = s.locations ∧
    (calculateMetrics s mlist).unscheduledCount = s.unscheduledCount ∧
    ∀ i, ((calculateMetrics s mlist).evs i).placedLocation = (s.evs i).placedLocation ∧
      ((calculateMetrics s mlist).evs i).indices = (s.evs i).indices := by
  have main := foldl_rel
    (fun (acc : St × Int × Int × Int × Int) (e : EventS) =>
      let (s, de, sa, pr, wr) := acc
      let d := s.evs e.id
      if d.placedLocation = "" then (s, de, sa, pr, wr)
      else
        let parts := jsSplit d.placedLocation ' '
        let placedBldg := parts.headD ""
        let placedRoom := parts.get? 1
        let tier : Nat :=
          if e.bldgCode = "nan" ∨ e.bldgCode = "" then 1
          else if e.bldgCode = placedBldg ∧ placedRoom = some e.roomNumber then 1
          else if e.bldgCode = placedBldg ∧ (e.roomNumber = "nan" ∨ e.roomNumber = "") then 1
          else if e.bldgCode = placedBldg then 2
          else if
            (match s.locationPreferences.find? (fun p => p.1 = e.dept) with
              | some p => p.2.contains placedBldg
              | none => false) then 3
          else 4
        let s' :=
          { s with evs := fun i => if i = e.id then { s.evs i with metric := tier } else s.evs i }
        if tier = 1 then (s', de + 1, sa, pr, wr)
        else if tier = 2 then (s', de, sa + 1, pr, wr)
        else if tier = 3 then (s', de, sa, pr + 1, wr)
        else (s', de, sa, pr, wr + 1))
    (fun a b =>
      b.1.grid = a.1.grid ∧ b.1.locations = a.1.locations ∧
        b.1.unscheduledCount = a.1.unscheduledCount ∧
        ∀ i, (b.1.evs i).placedLocation = (a.1.evs i).placedLocation ∧
          (b.1.evs i).indices = (a.1.evs i).indices)
    (fun _ => ⟨rfl, rfl, rfl, fun _ => ⟨rfl, rfl⟩⟩)
    (fun _ _ _ h1 h2 => ⟨h2.1.trans h1.1, h2.2.1.trans h1.2.1, h2.2.2.1.trans h1.2.2.1,
      fun i => ⟨(h2.2.2.2 i).1.trans ((h1.2.2.2 i).1), (h2.2.2.2 i).2.trans ((h1.2.2.2 i).2)⟩⟩)
    (by
      intro a e
      obtain ⟨s, de, sa, pr, wr⟩ := a
      refine ⟨?_, ?_, ?_, fun i => ⟨?_, ?_⟩⟩ <;>
        · dsimp only
          generalize (if e.bldgCode = "nan" ∨ e.bldgCode = "" then 1
            else if e.bldgCode = (jsSplit (s.evs e.id).placedLocation ' ').headD "" ∧
                (jsSplit (s.evs e.id).placedLocation ' ').get? 1 = some e.roomNumber then 1
            else if e.bldgCode = (jsSplit (s.evs e.id).placedLocation ' ').headD "" ∧
                (e.roomNumber = "nan" ∨ e.roomNumber = "") then 1
            else if e.bldgCode = (jsSplit (s.evs e.id).placedLocation ' ').headD "" then 2
            else if
              (match s.locationPreferences.find? (fun p => p.1 = e.dept) with
                | some p => p.2.contains ((jsSplit (s.evs e.id).placedLocation ' ').headD "")
                | none => false) then 3
            else (4 : Nat)) = T
          repeat' split
          all_goals dsimp only
          repeat' split
          all_goals rfl)
    mlist (s, 0, 0, 0, 0)
  exact main

theorem calculateMetrics_wf (events mlist : List EventS) (s : St)
    (hw : WfSt events s) : WfSt events (calculateMetrics s mlist) := by
  obtain ⟨hg, hl, hu, hev⟩ := calculateMetrics_fields s mlist
  have hnames : locNames (calculateMetrics s mlist) = locNames s := by
    unfold locNames
    rw [hl]
  refine ⟨?_, ?_, ?_, ?_, ?_, ?_, ?_⟩
  · intro e he hp k hk
    rw [(hev e.id).1] at hp
    rw [(hev e.id).2] at hk
    rw [hg, (hev e.id).1]
    exact hw.w1 e he hp k hk
  · intro loc k i hsome
    rw [hg] at hsome
    obtain ⟨e, he, hei, hploc, hpne, hslot⟩ := hw.w2 loc k i hsome
    exact ⟨e, he, hei, by rw [(hev e.id).1]; exact hploc,
      by rw [(hev e.id).1]; exact hpne, by rw [(hev e.id).2]; exact hslot⟩
  · intro e he hp
    rw [(hev e.id).2]
    exact hw.w3 e he ((hev e.id).1.symm.trans hp)
  · intro e he hp
    rw [(hev e.id).1] at hp
    rw [(hev e.id).1, hnames]
    exact hw.w4 e he hp
  · intro loc hl' k
    rw [hg]
    exact hw.w5 loc (by rw [hnames] at hl'; exact hl') k
  · intro j hj
    rw [hu] at hj
    rw [hnames]
    exact hw.w6 j hj
  · rw [hnames]
    exact hw.w7

/-! ## C1 — the initial state is well-formed -/

theorem resetEvents_props :
    ∀ (l : List EventS) (s : St),
      (resetEvents s l).locations = s.locations ∧
      (resetEvents s l).grid = s.grid ∧
      (resetEvents s l).unscheduledCount = s.unscheduledCount ∧
      ((∀ i, s.evs i = resetDyn) → ∀ i, (resetEvents s l).evs i = resetDyn) := by
  intro l
  induction l with
  | nil => exact fun _ => ⟨rfl, rfl, rfl, fun h => h⟩
  | cons e t ih =>
    intro s
    have hstep : resetEvents s (e :: t) =
        resetEvents { s with evs := fun i => if i = e.id then resetDyn else s.evs i } t := by
      unfold resetEvents
      rw [List.foldl_cons]
    rw [hstep]
    obtain ⟨h1, h2, h3, h4⟩ :=
      ih { s with evs := fun i => if i = e.id then resetDyn else s.evs i }
    refine ⟨h1, h2, h3, fun hs => h4 (fun i => ?_)⟩
    dsimp only
    split
    · rfl
    · exact hs i

theorem gridInit_none (W : Nat) :
    ∀ (ls : List LocationR) (g : String → List Cell),
      (∀ n k, (g n).getD k none = none) →
      ∀ n k,
        ((ls.foldl
          (fun g l => fun n => if n = l.name then List.replicate W none else g n) g) n).getD
            k none = none := by
  intro ls
  induction ls with
  | nil => exact fun g hg => hg
  | cons l t ih =>
    intro g hg
    rw [List.foldl_cons]
    refine ih _ (fun n k => ?_)
    dsimp only
    split
    · exact getD_replicate_none W k
    · exact hg n k

theorem enumFrom_mk_names :
    ∀ (l : List (String × Int)) (n : Nat),
      ((l.enumFrom n).map (fun p => LocationR.mk p.1 p.2.1 p.2.2)).map (·.name) =
        l.map (·.1) := by
  intro l
  induction l with
  | nil => exact fun _ => rfl
  | cons x t ih =>
    intro n
    simp only [List.enumFrom, List.map_cons]
    rw [ih (n + 1)]

theorem unName_take3 (j : Nat) : (unName j).data.take 3 = "UN ".data := by
  rw [unName, String.data_append]
  rfl

/-- After the constructor, `setLocationPreferences` and the `e.reset()` sweep,
the state is well-formed for the run's activity objects and the whole activity
list is a valid pool, provided no configured resource name is empty or starts
with the reserved `"UN "` prefix and the activity ids are distinct. -/
theorem initial_wf (locsIn : List (String × Int)) (schStartMin schEndMin : Int)
    (activeDays : List String) (interval timeGap : Int)
    (prefs : List (String × List String)) (events : List EventS) (s0 : St)
    (hok : scheduleNew locsIn schStartMin schEndMin activeDays interval timeGap = .ok s0)
    (hUN : ∀ p ∈ locsIn, p.1.data.take 3 ≠ "UN ".data)
    (hne : ∀ p ∈ locsIn, p.1 ≠ "")
    (hnd : (events.map (·.id)).Nodup) :
    WfSt events (resetEvents (setLocationPreferences s0 prefs) events) ∧
      PoolOk events (resetEvents (setLocationPreferences s0 prefs) events) events := by
  unfold scheduleNew at hok
  dsimp only at hok
  split at hok
  case isFalse => cases hok
  case isTrue hcond =>
  have hs0 := Except.ok.inj hok
  have hevs0 : s0.evs = fun _ => default := by rw [← hs0]
  have hlocs0 : s0.locations =
      locsIn.enum.map (fun p => LocationR.mk p.1 p.2.1 p.2.2) := by rw [← hs0]
  have hgrid0 : s0.grid =
      (locsIn.enum.map (fun p => LocationR.mk p.1 p.2.1 p.2.2)).foldl
        (fun g l => fun n =>
          if n = l.name then
            List.replicate
              (jsFloorDiv (schEndMin - schStartMin) interval *
                ((activeDays.map dayMapStr).length : Int)).toNat none
          else g n)
        (fun _ => []) := by rw [← hs0]
  obtain ⟨hlocsR, hgridR, _hcntR, hevR⟩ :=
    resetEvents_props events (setLocationPreferences s0 prefs)
  have hall : ∀ i,
      ((resetEvents (setLocationPreferences s0 prefs) events).evs i) = resetDyn :=
    hevR (fun i => congrFun hevs0 i)
  have hsplocs : (setLocationPreferences s0 prefs).locations = s0.locations := rfl
  have hspgrid : (setLocationPreferences s0 prefs).grid = s0.grid := rfl
  have hnames :
      locNames (resetEvents (setLocationPreferences s0 prefs) events) =
        locsIn.map (·.1) := by
    unfold locNames
    rw [hlocsR, hsplocs, hlocs0]
    exact enumFrom_mk_names locsIn 0
  have hgrid : ∀ n k,
      (((resetEvents (setLocationPreferences s0 prefs) events).grid n).getD k none) =
        none := by
    intro n k
    rw [hgridR, hspgrid, hgrid0]
    exact gridInit_none _ _ _ (fun _ _ => List.getD_nil) n k
  refine ⟨⟨?_, ?_, ?_, ?_, ?_, ?_, ?_⟩, ?_, hnd⟩
  · intro e _ hp
    rw [hall e.id] at hp
    exact absurd rfl hp
  · intro loc k i hsome
    rw [hgrid] at hsome
    cases hsome
  · intro e _ _
    rw [hall e.id]
    rfl
  · intro e _ hp
    rw [hall e.id] at hp
    exact absurd rfl hp
  · intro loc _ k
    exact hgrid loc k
  · intro j _ hmem
    rw [hnames] at hmem
    obtain ⟨p, hp, hpeq⟩ := List.mem_map.mp hmem
    exact hUN p hp (by rw [hpeq, unName_take3])
  · rw [hnames]
    intro hmem
    obtain ⟨p, hp, hpeq⟩ := List.mem_map.mp hmem
    exact hne p hp hpeq
  · intro x hx
    refine ⟨hx, ?_, ?_⟩ <;> rw [hall x.id] <;> rfl

/-! ## C1 — threading well-formedness through a whole run -/

theorem PoolOk_of_perm (events : List EventS) (s : St) (p q : List EventS)
    (h : PoolOk events s p) (hperm : List.Perm q p) : PoolOk events s q :=
  ⟨fun x hx => h.1 x (hperm.subset hx), ((hperm.map (·.id)).nodup_iff).mpr h.2⟩

theorem IdsDisj_of_perm_left (p q r : List EventS)
    (h : IdsDisj p r) (hperm : List.Perm q p) : IdsDisj q r :=
  fun x hx y hy => h x (hperm.subset hx) y hy

/-- A successful run of `createSchedule` from a well-formed reset state ends
well-formed: the pools handed between the phases stay valid through the three
shuffles, the four phases and the final metric pass. -/
theorem createSchedule_wf (events : List EventS) (s0 : St) (seed entropy : Nat)
    (f : Nat) (sF : St) (evsF : List EventS)
    (hnd : (events.map (·.id)).Nodup)
    (hw : WfSt events (resetEvents s0 events))
    (hpool : PoolOk events (resetEvents s0 events) events)
    (hok : createSchedule s0 events seed entropy = .ok (f, sF, evsF)) :
    WfSt events sF := by
  unfold createSchedule at hok
  dsimp only at hok
  cases h1 : shuffleJs (randomInit seed entropy) events with
  | error msg => rw [h1] at hok; cases hok
  | ok p1 =>
    obtain ⟨rng1, events1⟩ := p1
    rw [h1] at hok
    dsimp only at hok
    have hperm1 : List.Perm events1 events := shuffleJs_perm _ _ _ _ h1
    have hpool1 : PoolOk events (resetEvents s0 events) events1 :=
      PoolOk_of_perm events _ events events1 hpool hperm1
    have hnil : PoolOk events (resetEvents s0 events) [] :=
      ⟨fun x hx => absurd hx (List.not_mem_nil x), List.nodup_nil⟩
    have hd1 : IdsDisj events1 [] := fun x _ y hy => absurd hy (List.not_mem_nil y)
    have hd2 : IdsDisj ([] : List EventS) [] :=
      fun x hx => absurd hx (List.not_mem_nil x)
    rcases hp1 : phase1 (resetEvents s0 events) events1 0 [] [] with ⟨s1, f1, w1, fin1⟩
    rw [hp1] at hok
    dsimp only at hok
    have H1 := phase1_wf events hnd events1 (resetEvents s0 events) 0 [] []
      hw hpool1 hnil hnil hd1 hd1 hd2
    rw [hp1] at H1
    dsimp only at H1
    obtain ⟨hw1, hpw1, hpf1, hdisj1⟩ := H1
    cases h2 : shuffleJs rng1 w1 with
    | error msg => rw [h2] at hok; cases hok
    | ok p2 =>
      obtain ⟨rng2, w2⟩ := p2
      rw [h2] at hok
      dsimp only at hok
      have hperm2 := shuffleJs_perm _ _ _ _ h2
      have hpw2 : PoolOk events s1 w2 := PoolOk_of_perm events s1 w1 w2 hpw1 hperm2
      have hdisj2 : IdsDisj w2 fin1 := IdsDisj_of_perm_left w1 w2 fin1 hdisj1 hperm2
      rcases hp2 : phase2 s1 w2 f1 fin1 with ⟨s2, f2, fin2⟩
      rw [hp2] at hok
      dsimp only at hok
      have H2 := phase2_wf events hnd w2 s1 f1 fin1 hw1 hpw2 hpf1 hdisj2
      rw [hp2] at H2
      dsimp only at H2
      obtain ⟨hw2, hpf2⟩ := H2
      cases h3 : shuffleJs rng2 fin2 with
      | error msg => rw [h3] at hok; cases hok
      | ok p3 =>
        obtain ⟨rng3, fin3⟩ := p3
        rw [h3] at hok
        dsimp only at hok
        have hperm3 := shuffleJs_perm _ _ _ _ h3
        have hpf3 : PoolOk events s2 fin3 := PoolOk_of_perm events s2 fin2 fin3 hpf2 hperm3
        have hnil2 : PoolOk events s2 [] :=
          ⟨fun x hx => absurd hx (List.not_mem_nil x), List.nodup_nil⟩
        have hd3 : IdsDisj fin3 [] := fun x _ y hy => absurd hy (List.not_mem_nil y)
        rcases hp3 : phase3 s2 fin3 f2 [] with ⟨s3, f3, uns3⟩
        rw [hp3] at hok
        dsimp only at hok
        have H3 := phase3_wf events hnd fin3 s2 f2 [] hw2 hpf3 hnil2 hd3
        rw [hp3] at H3
        dsimp only at H3
        obtain ⟨hw3, hpu3⟩ := H3
        cases h4 : phase4 s3 uns3 with
        | error msg => rw [h4] at hok; cases hok
        | ok p4 =>
          obtain ⟨s4, iters⟩ := p4
          rw [h4] at hok
          dsimp only at hok
          have hw4 : WfSt events s4 :=
            phase4Go_wf events hnd (uns3.length + 1) s3 uns3 s4 iters hw3 hpu3 h4
          have hinj := Except.ok.inj hok
          have hsF : calculateMetrics s4 events1 = sF := congrArg (fun t => t.2.1) hinj
          rw [← hsF]
          exact calculateMetrics_wf events events1 s4 hw4

/-! ## C1 — the claim -/

/-- The outcome of a full sample run used to witness the invariant: two
activities with the same time window compete for the single room, one ends on
the overflow resource. -/
def c1Run : Nat × St × List EventS :=
  (createSchedule (setLocationPreferences exS0 []) [exEvA, exEvB] 7 0).toOption.getD
    (0, default, [])

/-- C1: throughout and after any run of `createSchedule` (which never passes
`force = true` to `placeEvent`), every grid slot holds at most one activity.
First conjunct: any well-formed state has disjoint occupied slot sets for
every pair of distinct placed activities sharing a resource.  Second
conjunct: the one step the phases perform — a non-force `placeEvent` on a
still-unassigned activity of the run against an existing resource — preserves
well-formedness, so the invariant holds at every intermediate state.  Third
conjunct: end to end, a completed run starting from the constructor (with
distinct activity ids and resource names that are nonempty and outside the
reserved `"UN "` namespace) ends with no two distinct placed activities
overlapping anywhere. -/
theorem c1_no_overlap :
    (∀ (events : List EventS) (s : St), WfSt events s → NoOverlap events s) ∧
    (∀ (events : List EventS) (s : St) (e : EventS) (loc : LocationR),
      WfSt events s → (events.map (·.id)).Nodup → e ∈ events → EvUnplaced s e →
      loc.name ∈ locNames s → WfSt events (placeEvent s e loc false).2) ∧
    (∀ (locsIn : List (String × Int)) (schStartMin schEndMin : Int)
      (activeDays : List String) (interval timeGap : Int)
      (prefs : List (String × List String)) (events : List EventS)
      (seed entropy : Nat) (s0 : St) (f : Nat) (sF : St) (evsF : List EventS),
      scheduleNew locsIn schStartMin schEndMin activeDays interval timeGap = .ok s0 →
      (∀ p ∈ locsIn, p.1.data.take 3 ≠ "UN ".data) →
      (∀ p ∈ locsIn, p.1 ≠ "") →
      (events.map (·.id)).Nodup →
      createSchedule (setLocationPreferences s0 prefs) events seed entropy =
        .ok (f, sF, evsF) →
      NoOverlap events sF) := by
  refine ⟨fun events s hw => hw.noOverlap, ?_, ?_⟩
  · intro events s e loc hw hnd he hun hloc
    exact placeEvent_wf events s e loc hw hnd he hun hloc
  · intro locsIn schStartMin schEndMin activeDays interval timeGap prefs events
      seed entropy s0 f sF evsF hok hUN hne hnd hrun
    obtain ⟨hwI, hpoolI⟩ := initial_wf locsIn schStartMin schEndMin activeDays
      interval timeGap prefs events s0 hok hUN hne hnd
    exact (createSchedule_wf events (setLocationPreferences s0 prefs) seed entropy
      f sF evsF hnd hwI hpoolI hrun).noOverlap

theorem c1_no_overlap_witness : NoOverlap [exEvA, exEvB] c1Run.2.1 :=
  c1_no_overlap.2.2 [("X 1", 50)] 480 1020 ["Monday"] 10 0 [] [exEvA, exEvB] 7 0 exS0
    c1Run.1 c1Run.2.1 c1Run.2.2 (by rfl) (by decide) (by decide) (by decide) (by rfl)
